import Mathlib

/-!
Verification development for the youtube-downloader Flask service
(`src/app.py`).  The job registry, the background download worker
(`download_video`), the progress callback (`progress_hook`), the filename
sanitizer (`sanitize_filename`) and the HTTP handlers (`start_download`,
`get_progress`, `get_file`) are shallowly embedded below.  Stateful code is
modelled as an explicit list of atomic registry mutations (one per Python
dictionary assignment); the sequence of observable registry states is the
scan of those mutations.  External collaborators (the yt-dlp engine) are
modelled by a `Scenario`: the metadata-fetch result, the outcome of each of
the up-to-three download attempts, and the progress-callback invocations the
engine makes during each attempt.  Numbers that Python stores as floats are
modelled as rationals.
-/

namespace YtDl

/-- A job record: the dictionary stored at `downloads[download_id]`
(app.py lines 64-72 for the initial value).  Python's `None` in the
`error` field is `Option.none`; `thumbnail` and `duration` are added by the
metadata phase (lines 128-129) and carried here from the start with the
natural zero defaults. -/
structure Job where
  status : String
  progress : ℚ
  title : String
  thumbnail : String
  duration : ℚ
  filename : String
  error : Option String
  speed : ℚ
  eta : ℚ
deriving Repr, DecidableEq

/-- The record inserted by `download_video` as its first statement
(app.py lines 64-72). -/
def initJob : Job :=
  { status := "starting", progress := 0, title := "", thumbnail := "",
    duration := 0, filename := "", error := none, speed := 0, eta := 0 }

/-- One atomic registry write performed by the worker thread (a single
Python dictionary item assignment), or a timed suspension (`time.sleep`). -/
inductive Mut where
  | setStatus (s : String)
  | setProgress (p : ℚ)
  | setTitle (t : String)
  | setThumbnail (t : String)
  | setDuration (d : ℚ)
  | setFilename (f : String)
  | setError (e : String)
  | setSpeed (v : ℚ)
  | setEta (v : ℚ)
  | sleep (n : ℕ)
deriving Repr, DecidableEq

/-- Effect of one atomic write on the job record; `sleep` leaves the record
unchanged. -/
def applyMut (j : Job) : Mut → Job
  | .setStatus s => { j with status := s }
  | .setProgress p => { j with progress := p }
  | .setTitle t => { j with title := t }
  | .setThumbnail t => { j with thumbnail := t }
  | .setDuration d => { j with duration := d }
  | .setFilename f => { j with filename := f }
  | .setError e => { j with error := some e }
  | .setSpeed v => { j with speed := v }
  | .setEta v => { j with eta := v }
  | .sleep _ => j

/-- Run a list of atomic writes from a starting record. -/
def execMuts (j : Job) : List Mut → Job
  | [] => j
  | m :: ms => execMuts (applyMut j m) ms

/-- All registry states a concurrent polling reader can observe while a
list of atomic writes executes from a starting record: the state before
each write plus the final state. -/
def statesFrom (j : Job) : List Mut → List Job
  | [] => [j]
  | m :: ms => j :: statesFrom (applyMut j m) ms

/-! ## The filename sanitizer (`sanitize_filename`, app.py lines 27-37) -/

/-- The reserved Windows filename characters removed by
`re.sub(r'[<>:"/\\|?*]', '', filename)` (app.py line 30). -/
def reservedB (c : Char) : Bool :=
  c == '<' || c == '>' || c == ':' || c == '\"' || c == '/' || c == '\\' ||
  c == '|' || c == '?' || c == '*'

/-- Python's Unicode whitespace predicate (the set matched by `\s` in
`re` on `str` and stripped by `str.strip()`): tab, newline, vertical tab,
form feed, carriage return, the information separators 1C-1F, space,
next line 85, no-break space A0, ogham space 1680, the en/em spaces
2000-200A, line/paragraph separators 2028/2029, narrow no-break space 202F,
medium mathematical space 205F and ideographic space 3000. -/
def pySpace (c : Char) : Bool :=
  c == ' ' || c == '\t' || c == '\n' || c.toNat == 0xb || c.toNat == 0xc ||
  c == '\r' || c.toNat == 0x1c || c.toNat == 0x1d || c.toNat == 0x1e ||
  c.toNat == 0x1f || c.toNat == 0x85 || c.toNat == 0xa0 ||
  c.toNat == 0x1680 || (decide (0x2000 ≤ c.toNat) && decide (c.toNat ≤ 0x200a)) ||
  c.toNat == 0x2028 || c.toNat == 0x2029 || c.toNat == 0x202f ||
  c.toNat == 0x205f || c.toNat == 0x3000

/-- Line 30: remove the reserved filesystem characters. -/
def dropReserved (l : List Char) : List Char := l.filter fun c => !reservedB c

/-- Line 32: keep only code points below 65536 that are additionally not in
the (unreachable, since above 65536) emoji range 1F600-1FAFF; mirrors the
Python condition exactly. -/
def dropNonBMP (l : List Char) : List Char :=
  l.filter fun c =>
    decide (c.toNat < 65536) &&
      (decide (c.toNat < 0x1F600) || decide (0x1FAFF < c.toNat))

/-- Line 34: remove supplementary-plane code points 10000-10FFFF
(a no-op after `dropNonBMP`, mirrored for faithfulness). -/
def dropSupplementary (l : List Char) : List Char :=
  l.filter fun c => !(decide (0x10000 ≤ c.toNat) && decide (c.toNat ≤ 0x10FFFF))

/-- Line 36, first half: `re.sub(r'\s+', ' ', filename)` — replace every
maximal run of whitespace by a single space. -/
def collapseWs : List Char → List Char
  | [] => []
  | [c] => [if pySpace c then ' ' else c]
  | c :: d :: rest =>
    if pySpace c && pySpace d then collapseWs (d :: rest)
    else (if pySpace c then ' ' else c) :: collapseWs (d :: rest)

/-- Drop trailing whitespace (the right half of `str.strip()`). -/
def dropTrailing (l : List Char) : List Char :=
  (l.reverse.dropWhile pySpace).reverse

/-- Line 36, second half: `str.strip()` — drop leading and trailing
whitespace. -/
def stripWs (l : List Char) : List Char := dropTrailing (l.dropWhile pySpace)

/-- The filename sanitizer `sanitize_filename` (app.py lines 27-37). -/
def sanitize_filename (s : String) : String :=
  String.mk (stripWs (collapseWs (dropSupplementary (dropNonBMP (dropReserved s.data)))))

/-! ## The progress callback (`progress_hook`, app.py lines 40-52) -/

/-- The dictionary the extraction engine passes to the progress callback.
A field holds `none` when the corresponding key is absent. -/
structure Hook where
  status : String
  total_bytes : Option ℕ
  total_bytes_estimate : Option ℕ
  downloaded_bytes : Option ℕ
  speed : Option ℚ
  eta : Option ℚ
deriving Repr, DecidableEq

/-- Floor of a rational, written with floor-division on the reduced
numerator and denominator so that it evaluates by kernel reduction. -/
def ratFloor (q : ℚ) : ℤ := Int.fdiv q.num (q.den : ℤ)

/-- Round to the nearest integer, ties to even — the semantics of Python's
built-in `round` (here applied to exact rationals in place of floats). -/
def roundHalfEven (q : ℚ) : ℤ :=
  if q - (ratFloor q : ℚ) < 1 / 2 then ratFloor q
  else if 1 / 2 < q - (ratFloor q : ℚ) then ratFloor q + 1
  else if ratFloor q % 2 = 0 then ratFloor q else ratFloor q + 1

/-- Python's `round(x, 1)`: round to one decimal place. -/
def round1 (q : ℚ) : ℚ := (roundHalfEven (q * 10) : ℚ) / 10

/-- Line 43: `d.get('total_bytes') or d.get('total_bytes_estimate', 0)` —
Python's `or` falls through to the estimate when `total_bytes` is absent
or falsy (zero). -/
def pythonTotal (d : Hook) : ℕ :=
  match d.total_bytes with
  | some n => if n ≠ 0 then n else d.total_bytes_estimate.getD 0
  | none => d.total_bytes_estimate.getD 0

/-- The registry writes performed by one invocation of `progress_hook`
(app.py lines 40-52). -/
def hookMuts (d : Hook) : List Mut :=
  if d.status = "downloading" then
    let total := pythonTotal d
    let downloaded := d.downloaded_bytes.getD 0
    if 0 < total then
      [.setProgress (round1 ((downloaded : ℚ) / (total : ℚ) * 100)),
       .setSpeed (d.speed.getD 0), .setEta (d.eta.getD 0)]
    else []
  else if d.status = "finished" then
    [.setProgress 100, .setStatus "processing"]
  else []

/-- Applying one engine callback to the owning job record. -/
def applyHook (j : Job) (d : Hook) : Job := execMuts j (hookMuts d)

/-! ## The download worker (`download_video`, app.py lines 55-166) -/

/-- Does the list start with the given pattern? -/
def startsWithList : List Char → List Char → Bool
  | _, [] => true
  | [], _ :: _ => false
  | a :: l, b :: p => a == b && startsWithList l p

/-- Does the pattern occur as a contiguous run somewhere in the list? -/
def hasInfixList (pat : List Char) : List Char → Bool
  | [] => startsWithList [] pat
  | a :: t => startsWithList (a :: t) pat || hasInfixList pat t

/-- Substring containment, Python's `pat in hay` for strings. -/
def containsSub (hay pat : String) : Bool := hasInfixList pat.data hay.data

/-- Line 152: an exception is classified as Windows file-lock contention
when its message mentions `WinError 32` or
`being used by another process`. -/
def isLockError (msg : String) : Bool :=
  containsSub msg "WinError 32" || containsSub msg "being used by another process"

/-- Python's `s.rsplit('.', 1)[0]`: everything before the last dot, or the
whole string when there is no dot. -/
def rsplitHeadList (l : List Char) : List Char :=
  if '.' ∈ l then ((l.reverse.dropWhile fun c => !(c == '.')).drop 1).reverse else l

/-- String form of `rsplitHeadList`. -/
def rsplitHead (s : String) : String := String.mk (rsplitHeadList s.data)

/-- Lines 140-143: the filename recorded on success; for audio-only
requests (`quality_height == 0`) the extension is rewritten to `.mp3`. -/
def successFilename (q : ℤ) (fn : String) : String :=
  if q = 0 then rsplitHead fn ++ ".mp3" else fn

/-- What the engine does on one download attempt: return a final path, or
raise an exception carrying a message. -/
inductive AttemptOutcome where
  | success (fn : String)
  | failure (msg : String)
deriving Repr, DecidableEq

/-- One download attempt as driven by the engine: the progress-callback
invocations it makes, then its outcome. -/
structure AttemptSpec where
  hooks : List Hook
  outcome : AttemptOutcome
deriving Repr, DecidableEq

/-- Result of the metadata-only `extract_info` call (lines 124-129). -/
structure Metadata where
  title : String
  thumbnail : String
  duration : ℚ
deriving Repr, DecidableEq

deriving instance DecidableEq for Except

/-- One complete run of the external engine against a job: metadata-fetch
result, the three possible download attempts, and the requested quality. -/
structure Scenario where
  metaResult : Except String Metadata
  attempt0 : AttemptSpec
  attempt1 : AttemptSpec
  attempt2 : AttemptSpec
  quality_height : ℤ
deriving Repr, DecidableEq

/-- The attempt the engine runs at a given (zero-based) attempt index. -/
def attemptAt (sc : Scenario) : ℕ → AttemptSpec
  | 0 => sc.attempt0
  | 1 => sc.attempt1
  | _ => sc.attempt2

/-- Line 133: `max_retries = 3`. -/
def max_retries : ℕ := 3

/-- The retry loop of `download_video` (app.py lines 136-162) together
with the exception handler at lines 164-166: produces the registry writes
of the download phase and the number of attempts executed.  The fuel
argument mirrors `range(max_retries)`; the `Option String` argument is
`last_error`, raised (and caught by the outer handler) when the range is
exhausted — unreachable in fact, since the final attempt's failure is
re-raised directly. -/
def loopFrom (q : ℤ) (att : ℕ → AttemptSpec) :
    Option String → ℕ → ℕ → List Mut × ℕ
  | _, fuel + 1, attempt =>
    let a := att attempt
    let hs := (a.hooks.map hookMuts).flatten
    match a.outcome with
    | .success fn =>
      (hs ++ [.setFilename (successFilename q fn), .setStatus "completed",
              .setProgress 100], attempt + 1)
    | .failure m =>
      if isLockError m && decide (attempt < max_retries - 1) then
        let rest := loopFrom q att (some m) fuel (attempt + 1)
        (hs ++ .sleep (2 ^ attempt) :: .setStatus "retrying" :: rest.1, rest.2)
      else
        (hs ++ [.setStatus "error", .setError m], attempt + 1)
  | some m, 0, attempt => ([.setStatus "error", .setError m], attempt)
  | none, 0, attempt => ([], attempt)

/-- The download phase of a scenario: the loop entered at attempt 0 with
full fuel and no `last_error`. -/
def loopRun (sc : Scenario) : List Mut × ℕ :=
  loopFrom sc.quality_height (attemptAt sc) none max_retries 0

/-- All registry writes `download_video` performs after inserting the
initial record: the metadata phase (lines 124-130) then the download
phase; a metadata failure goes straight to the exception handler
(lines 164-166). -/
def traceOf (sc : Scenario) : List Mut :=
  match sc.metaResult with
  | .error m => [.setStatus "error", .setError m]
  | .ok meta =>
    .setTitle (sanitize_filename meta.title) :: .setThumbnail meta.thumbnail ::
    .setDuration meta.duration :: .setStatus "downloading" :: (loopRun sc).1

/-- Every observable state of the job record over a scenario, starting
from the freshly inserted record. -/
def states (sc : Scenario) : List Job := statesFrom initJob (traceOf sc)

/-- The record a poll at (discrete) time `n` returns: the `n`-th
observable state, or the final state for any later time. -/
def obsAt (sc : Scenario) (n : ℕ) : Job :=
  (states sc).getD (min n ((states sc).length - 1)) initJob

/-- The job record after the worker thread has finished. -/
def finalState (sc : Scenario) : Job := execMuts initJob (traceOf sc)

/-- The backoff delays (arguments of `time.sleep`) occurring in a list of
writes, in order. -/
def sleepsOf (tr : List Mut) : List ℕ :=
  tr.filterMap fun m => match m with | .sleep n => some n | _ => none

/-! ## The HTTP handlers (app.py lines 258-333) -/

/-- Body of `POST /api/download`. -/
structure DlRequest where
  url : String
  quality : Option ℤ
deriving Repr, DecidableEq

/-- Lines 269-273: `None` becomes the 8K ceiling 4320, values above the
ceiling are clamped to it, everything else (zero and negative values
included) passes through. -/
def normalizeQuality : Option ℤ → ℤ
  | none => 4320
  | some q => if 4320 < q then 4320 else q

/-- The format-selection options built from the quality tier
(lines 75-88 and 93). -/
structure FormatSpec where
  format : String
  merge_output_format : Option String
  postprocessors : List (String × String × String)
deriving Repr, DecidableEq

/-- The video-tier format string (line 86). -/
def videoFormatStr (q : ℤ) : String :=
  "bestvideo[height<=" ++ toString q ++ "][ext=mp4]+bestaudio[ext=m4a]/bestvideo[height<=" ++
    toString q ++ "]+bestaudio/best[height<=" ++ toString q ++ "]/best"

/-- Format selection in `download_video` (lines 75-88, and line 93 for
`merge_output_format`): quality 0 requests best audio with an MP3
post-processor, anything else requests the height-constrained video
string; `merge_output_format` is mp4 exactly for positive tiers. -/
def formatSelection (quality_height : ℤ) : FormatSpec :=
  if quality_height = 0 then
    { format := "bestaudio/best",
      merge_output_format := if 0 < quality_height then some "mp4" else none,
      postprocessors := [("FFmpegExtractAudio", "mp3", "320")] }
  else
    { format := videoFormatStr quality_height,
      merge_output_format := if 0 < quality_height then some "mp4" else none,
      postprocessors := [] }

/-- What `threading.Thread(target=download_video, args=...)` is started
with (lines 281-283). -/
structure Spawn where
  url : String
  download_id : String
  quality_height : ℤ
deriving Repr, DecidableEq

/-- The in-memory registry `downloads`: association of job identifiers to
records, newest first (a later insert for the same key shadows an earlier
one, like a Python dictionary assignment). -/
abbrev Registry := List (String × Job)

/-- The `POST /api/download` handler `start_download` (lines 258-285):
normalizes the quality, rejects an empty URL with a 400 error, and
otherwise answers with the fresh identifier, the registry it leaves
untouched, and the background thread it spawns.  The identifier generated
by `uuid.uuid4()` is a parameter. -/
def start_download (req : DlRequest) (newId : String) (reg : Registry) :
    Except String (String × Registry × Spawn) :=
  let quality_height := normalizeQuality req.quality
  if req.url = "" then .error "No URL provided"
  else .ok (newId, reg, ⟨req.url, newId, quality_height⟩)

/-- The first statement of `download_video` (lines 64-72): insert the
fresh record into the registry.  This runs inside the spawned thread. -/
def registryInsertInit (reg : Registry) (id : String) : Registry :=
  (id, initJob) :: reg

/-- Response of `GET /api/progress/<id>` (lines 288-294). -/
inductive ProgressResp where
  | notFound
  | ok (j : Job)
deriving Repr, DecidableEq

/-- The `GET /api/progress/<id>` handler `get_progress`: 404 when the
identifier is unknown, otherwise the full record. -/
def get_progress (reg : Registry) (id : String) : ProgressResp :=
  match List.lookup id reg with
  | none => .notFound
  | some j => .ok j

/-- Python's `os.path.basename`: the part after the last slash. -/
def basename (s : String) : String :=
  String.mk ((s.data.reverse.takeWhile fun c => !(c == '/')).reverse)

/-- Python's `str.lower()`, restricted to the ASCII lowering `Char.toLower`
performs — enough for the `.mp3` suffix test it feeds. -/
def toLowerStr (s : String) : String := String.mk (s.data.map Char.toLower)

/-- Python's `str.endswith`. -/
def endsWithStr (s suf : String) : Bool := List.isSuffixOf suf.data s.data

/-- Response of `GET /api/file/<id>`: status code, MIME type and the path
served on success.  The `Content-Disposition` header is elided; no claim
concerns it. -/
structure FileResp where
  code : ℕ
  mimetype : Option String
  servedPath : Option String
deriving Repr, DecidableEq

/-- The `GET /api/file/<id>` handler `get_file` (lines 297-333): 404 for an
unknown identifier, 400 when the job is not `completed`, 404 when the
artifact is gone from disk, otherwise the file with MIME type `audio/mpeg`
for `.mp3` artifacts and `video/mp4` for everything else.  The filesystem
is modelled by the `fileExists` predicate. -/
def get_file (reg : Registry) (fileExists : String → Bool) (id : String) : FileResp :=
  match List.lookup id reg with
  | none => { code := 404, mimetype := none, servedPath := none }
  | some download =>
    if download.status ≠ "completed" then
      { code := 400, mimetype := none, servedPath := none }
    else if !(fileExists download.filename) then
      { code := 404, mimetype := none, servedPath := none }
    else
      let filename := basename download.filename
      let mt := if endsWithStr (toLowerStr filename) ".mp3"
        then "audio/mpeg" else "video/mp4"
      { code := 200, mimetype := some mt, servedPath := some download.filename }

/-! ## Auxiliary predicates on traces and records -/

/-- Invariant of every record state before the terminal transition begins:
the error field is still `None` and the status is one of the four
non-terminal states. -/
def PreInv (j : Job) : Prop :=
  j.error = none ∧
  (j.status = "starting" ∨ j.status = "downloading" ∨ j.status = "retrying" ∨
    j.status = "processing")

/-- Every timed suspension in the write list is immediately followed by
the `retrying` status write. -/
def sleepThenRetryB : List Mut → Bool
  | .sleep _ :: rest =>
    (match rest.head? with
     | some (.setStatus s) => s == "retrying"
     | _ => false) && sleepThenRetryB rest
  | _ :: rest => sleepThenRetryB rest
  | [] => true

/-- Does a given atomic write occur in the list? -/
def hasMut (m : Mut) : List Mut → Bool
  | [] => false
  | x :: rest => x == m || hasMut m rest

/-! ## Concrete scenarios and inputs used in counterexamples and witnesses -/

/-- A scenario whose metadata fetch fails. -/
def scMetaErr : Scenario :=
  { metaResult := .error "boom", attempt0 := ⟨[], .failure "x"⟩,
    attempt1 := ⟨[], .failure "x"⟩, attempt2 := ⟨[], .failure "x"⟩,
    quality_height := 1080 }

/-- A scenario that succeeds on the first attempt with no callbacks. -/
def scOnePlain : Scenario :=
  { metaResult := .ok ⟨"My Video", "th", 0⟩,
    attempt0 := ⟨[], .success "/downloads/My Video.mp4"⟩,
    attempt1 := ⟨[], .failure "x"⟩, attempt2 := ⟨[], .failure "x"⟩,
    quality_height := 1080 }

/-- A typical Windows file-lock contention message. -/
def lockMsg : String :=
  "[WinError 32] The process cannot access the file because it is being used by another process"

/-- An audio-only scenario with one contention failure, then success. -/
def scOneLock : Scenario :=
  { metaResult := .ok ⟨"T", "th", 0⟩, attempt0 := ⟨[], .failure lockMsg⟩,
    attempt1 := ⟨[], .success "/downloads/T.webm"⟩,
    attempt2 := ⟨[], .failure "x"⟩, quality_height := 0 }

/-- A scenario with three consecutive contention failures. -/
def scThreeLocks : Scenario :=
  { metaResult := .ok ⟨"T", "th", 0⟩,
    attempt0 := ⟨[], .failure (lockMsg ++ " (a)")⟩,
    attempt1 := ⟨[], .failure (lockMsg ++ " (b)")⟩,
    attempt2 := ⟨[], .failure (lockMsg ++ " (c)")⟩, quality_height := 720 }

/-- A scenario whose first attempt fails with a non-contention error. -/
def scHardFail : Scenario :=
  { metaResult := .ok ⟨"T", "th", 0⟩,
    attempt0 := ⟨[], .failure "ERROR: This video is unavailable"⟩,
    attempt1 := ⟨[], .failure "x"⟩, attempt2 := ⟨[], .failure "x"⟩,
    quality_height := 720 }

/-- An engine callback whose percentage does not survive rounding intact. -/
def cexHook : Hook :=
  { status := "downloading", total_bytes := some 3, total_bytes_estimate := none,
    downloaded_bytes := some 1, speed := none, eta := none }

/-- The engine callback of the specification's worked example: 50 of 100
bytes transferred. -/
def exampleHook : Hook :=
  { status := "downloading", total_bytes := some 100, total_bytes_estimate := none,
    downloaded_bytes := some 50, speed := some 7, eta := some 3 }

/-- The worked-example callback with both totals removed. -/
def exampleHookNoTotal : Hook :=
  { exampleHook with total_bytes := none, total_bytes_estimate := none }

/-- A completed audio job used to exercise `get_file`. -/
def wJob : Job :=
  { initJob with status := "completed", filename := "/downloads/t.mp3" }

/-- A one-entry registry holding `wJob` under identifier `a`. -/
def wReg : Registry := [("a", wJob)]

/-! ## Properties of the sanitizer -/

/-- No two adjacent whitespace characters (Boolean form). -/
def noDoubleWsB : List Char → Bool
  | a :: b :: rest => !(pySpace a && pySpace b) && noDoubleWsB (b :: rest)
  | _ => true

/-- Neither the first nor the last character is whitespace. -/
def noEdgeWsB (l : List Char) : Bool :=
  (match l.head? with | some c => !pySpace c | none => true) &&
  (match l.getLast? with | some c => !pySpace c | none => true)

/-- The adjacency relation behind `noDoubleWsB`. -/
def NoTwoWs (a b : Char) : Prop := ¬(pySpace a = true ∧ pySpace b = true)

theorem noDoubleWsB_iff_chain :
    ∀ l : List Char, noDoubleWsB l = true ↔ List.Chain' NoTwoWs l := by
  intro l
  induction l with
  | nil => simp [noDoubleWsB]
  | cons a t ih =>
    cases t with
    | nil => simp [noDoubleWsB]
    | cons b t2 =>
      rw [List.chain'_cons, ← ih]
      simp only [noDoubleWsB, Bool.and_eq_true, Bool.not_eq_true']
      constructor
      · rintro ⟨h1, h2⟩
        refine ⟨?_, h2⟩
        intro hc
        rw [hc.1, hc.2] at h1
        simp at h1
      · rintro ⟨h1, h2⟩
        refine ⟨?_, h2⟩
        cases ha : pySpace a <;> cases hb : pySpace b <;> simp_all [NoTwoWs]

theorem collapseWs_mem :
    ∀ (l : List Char) (c : Char), c ∈ collapseWs l → c = ' ' ∨ c ∈ l := by
  intro l
  induction l with
  | nil => intro c hc; simp [collapseWs] at hc
  | cons a t ih =>
    cases t with
    | nil =>
      intro c hc
      simp only [collapseWs, List.mem_singleton] at hc
      by_cases h : pySpace a = true
      · rw [if_pos h] at hc; exact Or.inl hc
      · rw [if_neg h] at hc; exact Or.inr (by simp [hc])
    | cons b t2 =>
      intro c hc
      simp only [collapseWs] at hc
      by_cases h : (pySpace a && pySpace b) = true
      · rw [if_pos h] at hc
        rcases ih c hc with h1 | h1
        · exact Or.inl h1
        · exact Or.inr (List.mem_cons_of_mem _ h1)
      · rw [if_neg h] at hc
        rcases List.mem_cons.mp hc with h1 | h1
        · by_cases ha : pySpace a = true
          · rw [if_pos ha] at h1; exact Or.inl h1
          · rw [if_neg ha] at h1; exact Or.inr (by simp [h1])
        · rcases ih c h1 with h2 | h2
          · exact Or.inl h2
          · exact Or.inr (List.mem_cons_of_mem _ h2)

theorem collapseWs_space_eq :
    ∀ (l : List Char) (c : Char), c ∈ collapseWs l → pySpace c = true → c = ' ' := by
  intro l
  induction l with
  | nil => intro c hc; simp [collapseWs] at hc
  | cons a t ih =>
    cases t with
    | nil =>
      intro c hc hs
      simp only [collapseWs, List.mem_singleton] at hc
      by_cases h : pySpace a = true
      · rw [if_pos h] at hc; exact hc
      · rw [if_neg h] at hc; rw [hc] at hs; exact absurd hs h
    | cons b t2 =>
      intro c hc hs
      simp only [collapseWs] at hc
      by_cases h : (pySpace a && pySpace b) = true
      · rw [if_pos h] at hc; exact ih c hc hs
      · rw [if_neg h] at hc
        rcases List.mem_cons.mp hc with h1 | h1
        · by_cases ha : pySpace a = true
          · rw [if_pos ha] at h1; exact h1
          · rw [if_neg ha] at h1; rw [h1] at hs; exact absurd hs ha
        · exact ih c h1 hs

/-- The head of a collapsed nonempty list is whitespace exactly when the
original head is (and then it is the single space the run collapsed to). -/
theorem collapseWs_head :
    ∀ (t : List Char) (a : Char), ∃ e tl,
      collapseWs (a :: t) = e :: tl ∧ pySpace e = pySpace a := by
  intro t
  induction t with
  | nil =>
    intro a
    refine ⟨if pySpace a then ' ' else a, [], by simp [collapseWs], ?_⟩
    by_cases h : pySpace a = true
    · rw [if_pos h, h]; rfl
    · rw [if_neg h]
  | cons b t2 ih =>
    intro a
    by_cases h : (pySpace a && pySpace b) = true
    · obtain ⟨e, tl, he, hs⟩ := ih b
      refine ⟨e, tl, ?_, ?_⟩
      · simp only [collapseWs]; rw [if_pos h]; exact he
      · rw [hs, (Bool.and_eq_true _ _).mp h |>.2, (Bool.and_eq_true _ _).mp h |>.1]
    · refine ⟨if pySpace a then ' ' else a, collapseWs (b :: t2), ?_, ?_⟩
      · simp only [collapseWs]; rw [if_neg h]
      · by_cases ha : pySpace a = true
        · rw [if_pos ha, ha]; rfl
        · rw [if_neg ha]

theorem collapseWs_chain :
    ∀ l : List Char, List.Chain' NoTwoWs (collapseWs l) := by
  intro l
  induction l with
  | nil => simp [collapseWs]
  | cons a t ih =>
    cases t with
    | nil => simp [collapseWs]
    | cons b t2 =>
      by_cases h : (pySpace a && pySpace b) = true
      · simp only [collapseWs]; rw [if_pos h]; exact ih
      · simp only [collapseWs]; rw [if_neg h]
        obtain ⟨e, tl, he, hs⟩ := collapseWs_head t2 b
        rw [he]
        rw [he] at ih
        rw [List.chain'_cons]
        refine ⟨?_, ih⟩
        intro hc
        have ha : pySpace a = true := by
          by_cases ha : pySpace a = true
          · exact ha
          · rw [if_neg ha] at hc; exact absurd hc.1 ha
        have hb : pySpace b = true := by rw [← hs]; exact hc.2
        rw [ha, hb] at h
        exact h rfl

theorem head?_dropWhile_pySpace :
    ∀ (l : List Char) (a : Char),
      (l.dropWhile pySpace).head? = some a → pySpace a = false := by
  intro l
  induction l with
  | nil => intro a h; simp at h
  | cons c t ih =>
    intro a h
    cases hc : pySpace c with
    | true => rw [List.dropWhile_cons, if_pos hc] at h; exact ih a h
    | false =>
      rw [List.dropWhile_cons, if_neg (by simp [hc])] at h
      simp only [List.head?_cons, Option.some.injEq] at h
      rw [← h]; exact hc

theorem dropTrailing_prefixOfSelf (l : List Char) : dropTrailing l <+: l := by
  have h := List.dropWhile_suffix (l := l.reverse) pySpace
  have h2 : ((l.reverse.dropWhile pySpace).reverse).reverse <:+ l.reverse := by
    rw [List.reverse_reverse]; exact h
  exact List.reverse_suffix.mp h2

theorem stripWs_infixOfSelf (l : List Char) : stripWs l <:+: l :=
  ((dropTrailing_prefixOfSelf (l.dropWhile pySpace)).isInfix).trans
    ((List.dropWhile_suffix pySpace).isInfix)

theorem stripWs_subset (l : List Char) : stripWs l ⊆ l :=
  (stripWs_infixOfSelf l).subset

theorem stripWs_chain {l : List Char} (h : List.Chain' NoTwoWs l) :
    List.Chain' NoTwoWs (stripWs l) :=
  h.infix (stripWs_infixOfSelf l)

theorem stripWs_head (l : List Char) (a : Char)
    (h : (stripWs l).head? = some a) : pySpace a = false := by
  rw [stripWs] at h
  obtain ⟨t, ht⟩ := dropTrailing_prefixOfSelf (l.dropWhile pySpace)
  apply head?_dropWhile_pySpace l a
  rw [← ht]
  cases hd : dropTrailing (l.dropWhile pySpace) with
  | nil => rw [hd] at h; simp at h
  | cons x xs =>
    rw [hd] at h
    simp only [List.head?_cons, Option.some.injEq] at h
    rw [← h]; rfl

theorem stripWs_last (l : List Char) (a : Char)
    (h : (stripWs l).getLast? = some a) : pySpace a = false := by
  rw [stripWs, dropTrailing, List.getLast?_reverse] at h
  exact head?_dropWhile_pySpace _ a h

theorem collapseWs_eq_self :
    ∀ l : List Char, (∀ c ∈ l, pySpace c = true → c = ' ') →
      List.Chain' NoTwoWs l → collapseWs l = l := by
  intro l
  induction l with
  | nil => intro _ _; rfl
  | cons a t ih =>
    cases t with
    | nil =>
      intro hsp _
      simp only [collapseWs]
      by_cases h : pySpace a = true
      · rw [if_pos h, hsp a (by simp) h]
      · rw [if_neg h]
    | cons b t2 =>
      intro hsp hch
      rw [List.chain'_cons] at hch
      have hnb : ¬((pySpace a && pySpace b) = true) := by
        intro hab
        exact hch.1 ⟨((Bool.and_eq_true _ _).mp hab).1, ((Bool.and_eq_true _ _).mp hab).2⟩
      simp only [collapseWs]
      rw [if_neg hnb]
      congr 1
      · by_cases ha : pySpace a = true
        · rw [if_pos ha, hsp a (by simp) ha]
        · rw [if_neg ha]
      · exact ih (fun c hc hs => hsp c (List.mem_cons_of_mem _ hc) hs) hch.2

theorem stripWs_eq_self (l : List Char)
    (hh : ∀ a, l.head? = some a → pySpace a = false)
    (hl : ∀ a, l.getLast? = some a → pySpace a = false) : stripWs l = l := by
  have h1 : l.dropWhile pySpace = l := by
    cases l with
    | nil => rfl
    | cons a t => rw [List.dropWhile_cons, if_neg (by simp [hh a rfl])]
  rw [stripWs, h1, dropTrailing]
  have h2 : l.reverse.dropWhile pySpace = l.reverse := by
    cases hr : l.reverse with
    | nil => rfl
    | cons a t =>
      have ha : l.getLast? = some a := by rw [← List.head?_reverse, hr]; rfl
      rw [List.dropWhile_cons, if_neg (by simp [hl a ha])]
  rw [h2, List.reverse_reverse]

/-- All structural facts about the sanitizer pipeline output needed both
for the safety properties and for idempotence. -/
theorem sanitize_pipeline_props (l : List Char) :
    (∀ c ∈ stripWs (collapseWs (dropSupplementary (dropNonBMP (dropReserved l)))),
      reservedB c = false ∧ c.toNat < 65536 ∧ (pySpace c = true → c = ' '))
    ∧ List.Chain' NoTwoWs
        (stripWs (collapseWs (dropSupplementary (dropNonBMP (dropReserved l)))))
    ∧ (∀ a, (stripWs (collapseWs (dropSupplementary (dropNonBMP (dropReserved l))))).head? =
        some a → pySpace a = false)
    ∧ (∀ a, (stripWs (collapseWs (dropSupplementary (dropNonBMP (dropReserved l))))).getLast? =
        some a → pySpace a = false) := by
  refine ⟨?_, stripWs_chain (collapseWs_chain _), fun a => stripWs_head _ a,
    fun a => stripWs_last _ a⟩
  intro c hc
  have hcol : c ∈ collapseWs (dropSupplementary (dropNonBMP (dropReserved l))) :=
    stripWs_subset _ hc
  have hsp : pySpace c = true → c = ' ' := collapseWs_space_eq _ c hcol
  rcases collapseWs_mem _ c hcol with hsp2 | hmem
  · subst hsp2
    refine ⟨by decide, by decide, fun _ => rfl⟩
  · have h3 := (List.mem_filter.mp hmem).2
    have hmem2 := (List.mem_filter.mp hmem).1
    have h2 := (List.mem_filter.mp hmem2).2
    have hmem1 := (List.mem_filter.mp hmem2).1
    have h1 := (List.mem_filter.mp hmem1).2
    simp only [Bool.and_eq_true, decide_eq_true_eq] at h2
    refine ⟨by simpa using h1, h2.1, hsp⟩

/-- C6: the filename sanitizer is idempotent, and its output contains only
basic-multilingual-plane code points, none of the reserved filesystem
characters, no two adjacent whitespace characters, and no leading or
trailing whitespace. -/
theorem sanitize_filename_idempotent_and_safe (s : String) :
    sanitize_filename (sanitize_filename s) = sanitize_filename s
    ∧ (sanitize_filename s).data.all
        (fun c => decide (c.toNat < 65536) && !reservedB c) = true
    ∧ noDoubleWsB (sanitize_filename s).data = true
    ∧ noEdgeWsB (sanitize_filename s).data = true := by
  obtain ⟨hmem, hch, hh, hl⟩ := sanitize_pipeline_props s.data
  have hdata : (sanitize_filename s).data =
      stripWs (collapseWs (dropSupplementary (dropNonBMP (dropReserved s.data)))) := rfl
  refine ⟨?_, ?_, ?_, ?_⟩
  · show String.mk (stripWs (collapseWs (dropSupplementary (dropNonBMP
      (dropReserved (sanitize_filename s).data))))) = sanitize_filename s
    rw [hdata]
    have e1 : dropReserved
        (stripWs (collapseWs (dropSupplementary (dropNonBMP (dropReserved s.data))))) =
        stripWs (collapseWs (dropSupplementary (dropNonBMP (dropReserved s.data)))) :=
      List.filter_eq_self.mpr (fun c hc => by simp [(hmem c hc).1])
    rw [e1]
    have e2 : dropNonBMP
        (stripWs (collapseWs (dropSupplementary (dropNonBMP (dropReserved s.data))))) =
        stripWs (collapseWs (dropSupplementary (dropNonBMP (dropReserved s.data)))) :=
      List.filter_eq_self.mpr (fun c hc => by
        have h := (hmem c hc).2.1
        simp only [Bool.and_eq_true, Bool.or_eq_true, decide_eq_true_eq]
        omega)
    rw [e2]
    have e3 : dropSupplementary
        (stripWs (collapseWs (dropSupplementary (dropNonBMP (dropReserved s.data))))) =
        stripWs (collapseWs (dropSupplementary (dropNonBMP (dropReserved s.data)))) :=
      List.filter_eq_self.mpr (fun c hc => by
        have h := (hmem c hc).2.1
        simp only [Bool.and_eq_true, Bool.not_eq_true', Bool.and_eq_false_iff,
          decide_eq_false_iff_not]
        left
        omega)
    rw [e3]
    have e4 : collapseWs
        (stripWs (collapseWs (dropSupplementary (dropNonBMP (dropReserved s.data))))) =
        stripWs (collapseWs (dropSupplementary (dropNonBMP (dropReserved s.data)))) :=
      collapseWs_eq_self _ (fun c hc => (hmem c hc).2.2) hch
    rw [e4]
    have e5 : stripWs
        (stripWs (collapseWs (dropSupplementary (dropNonBMP (dropReserved s.data))))) =
        stripWs (collapseWs (dropSupplementary (dropNonBMP (dropReserved s.data)))) :=
      stripWs_eq_self _ hh hl
    rw [e5]
    rfl
  · rw [List.all_eq_true]
    intro c hc
    rw [hdata] at hc
    have h := hmem c hc
    simp [h.1, h.2.1]
  · rw [hdata, noDoubleWsB_iff_chain]
    exact hch
  · rw [noEdgeWsB, Bool.and_eq_true]
    constructor
    · cases hx : (sanitize_filename s).data.head? with
      | none => rfl
      | some a =>
        rw [hdata] at hx
        simp [hh a hx]
    · cases hx : (sanitize_filename s).data.getLast? with
      | none => rfl
      | some a =>
        rw [hdata] at hx
        simp [hl a hx]

/-! ## Quality-tier normalization (C7, C10) -/

/-- C7: quality 10000 produces the same format selection as the ceiling
4320; an omitted quality normalizes to the ceiling 4320; quality 0 passes
through normalization unchanged and selects the audio-only format path
(best-audio format string with the MP3 extraction post-processor and no
merge container), which depends on no other request parameter. -/
theorem quality_clamp_format_selection :
    formatSelection (normalizeQuality (some 10000)) =
      formatSelection (normalizeQuality (some 4320))
    ∧ normalizeQuality none = 4320
    ∧ normalizeQuality (some 0) = 0
    ∧ formatSelection 0 =
      { format := "bestaudio/best", merge_output_format := none,
        postprocessors := [("FFmpegExtractAudio", "mp3", "320")] } := by
  refine ⟨?_, rfl, by decide, by decide⟩
  have h : normalizeQuality (some 10000) = normalizeQuality (some 4320) := by decide
  rw [h]

theorem videoFormatStr_ne_audio (q : ℤ) : videoFormatStr q ≠ "bestaudio/best" := by
  intro h
  have hl := congrArg String.length h
  simp only [videoFormatStr] at hl
  rw [String.length_append, String.length_append, String.length_append,
    String.length_append, String.length_append, String.length_append] at hl
  have l1 : ("bestvideo[height<=" : String).length = 18 := rfl
  have l2 : ("bestaudio/best" : String).length = 14 := rfl
  rw [l1, l2] at hl
  omega

/-- C10: a negative quality value is neither rejected nor clamped nor
treated as audio-only: normalization passes it through, `start_download`
accepts it, and it flows unchanged into the height-constrained video
format string; the audio-only format is selected exactly for quality 0;
and normalization changes a supplied value exactly when it exceeds the
4320 ceiling. -/
theorem negative_quality_flows_unchanged :
    (∀ q : ℤ, q < 0 → normalizeQuality (some q) = q
      ∧ formatSelection q =
        { format := videoFormatStr q, merge_output_format := none,
          postprocessors := [] }
      ∧ ∀ (url newId : String) (reg : Registry), url ≠ "" →
          start_download ⟨url, some q⟩ newId reg = .ok (newId, reg, ⟨url, newId, q⟩))
    ∧ (∀ q : ℤ, (formatSelection q).format = "bestaudio/best" ↔ q = 0)
    ∧ (∀ q : ℤ, normalizeQuality (some q) ≠ q ↔ 4320 < q) := by
  refine ⟨?_, ?_, ?_⟩
  · intro q hq
    have hnorm : normalizeQuality (some q) = q := by
      simp only [normalizeQuality]
      rw [if_neg (by omega)]
    refine ⟨hnorm, ?_, ?_⟩
    · simp only [formatSelection]
      rw [if_neg (show ¬q = 0 by omega), if_neg (show ¬(0 < q) by omega)]
    · intro url newId reg hurl
      simp only [start_download, hnorm]
      rw [if_neg hurl]
  · intro q
    constructor
    · intro h
      by_contra hne
      simp only [formatSelection] at h
      rw [if_neg hne] at h
      exact videoFormatStr_ne_audio q h
    · intro h; subst h; rfl
  · intro q
    simp only [normalizeQuality]
    by_cases h : 4320 < q
    · rw [if_pos h]
      constructor
      · intro _; exact h
      · intro _; omega
    · rw [if_neg h]
      simp only [ne_eq, not_true_eq_false, false_iff]
      omega

theorem negative_quality_flows_unchanged_witness :
    normalizeQuality (some (-5)) = -5
    ∧ formatSelection (-5) =
      { format := videoFormatStr (-5), merge_output_format := none,
        postprocessors := [] }
    ∧ start_download ⟨"https://example.com/v1", some (-5)⟩ "d1" [] =
      .ok ("d1", [], ⟨"https://example.com/v1", "d1", -5⟩) := by
  obtain ⟨h1, _, _⟩ := negative_quality_flows_unchanged
  obtain ⟨ha, hb, hc⟩ := h1 (-5) (by decide)
  exact ⟨ha, hb, hc "https://example.com/v1" "d1" [] (by decide)⟩

/-! ## The progress callback (C8) -/

theorem ratFloor_eq_floor (q : ℚ) : ratFloor q = ⌊q⌋ := by
  rw [ratFloor, Rat.floor_def]
  exact Int.fdiv_eq_ediv _ (Int.ofNat_nonneg _)

/-- C8 counterexample: the callback stores the percentage rounded to one
decimal place, not the exact ratio — at 1 byte of 3 the stored progress is
33.3, not 100/3. -/
theorem progress_hook_exact_ratio_cex :
    ¬ (∀ (j : Job) (d : Hook), d.status = "downloading" → 0 < pythonTotal d →
        (applyHook j d).progress =
          (d.downloaded_bytes.getD 0 : ℚ) / (pythonTotal d : ℚ) * 100) := by
  intro h
  have h1 := h initJob cexHook rfl (by decide)
  have h2 : (applyHook initJob cexHook).progress = 333 / 10 := by
    show (execMuts initJob (hookMuts cexHook)).progress = 333 / 10
    have hm : hookMuts cexHook =
        [.setProgress (round1 ((1 : ℚ) / 3 * 100)), .setSpeed 0, .setEta 0] := by
      rw [hookMuts]
      norm_num [cexHook, pythonTotal]
    rw [hm]
    show round1 ((1 : ℚ) / 3 * 100) = 333 / 10
    rw [round1, roundHalfEven, ratFloor_eq_floor]
    norm_num
  rw [h2] at h1
  have h3 : (cexHook.downloaded_bytes.getD 0 : ℚ) / (pythonTotal cexHook : ℚ) * 100 =
      100 / 3 := by norm_num [cexHook, pythonTotal]
  rw [h3] at h1
  norm_num at h1

/-- C8 (amended): while the engine reports `downloading`, a callback with
a known positive total (exact or estimated) sets progress to the
percentage `downloaded/total*100` rounded to one decimal place and
overwrites speed and eta; a callback with no known total leaves the whole
record unchanged. -/
theorem progress_hook_updates (j : Job) (d : Hook) :
    (d.status = "downloading" → 0 < pythonTotal d →
      applyHook j d = { j with
        progress := round1 ((d.downloaded_bytes.getD 0 : ℚ) / (pythonTotal d : ℚ) * 100),
        speed := d.speed.getD 0, eta := d.eta.getD 0 })
    ∧ (d.status = "downloading" → pythonTotal d = 0 → applyHook j d = j) := by
  constructor
  · intro hs ht
    rw [applyHook, hookMuts, if_pos hs, if_pos ht]
    rfl
  · intro hs ht
    rw [applyHook, hookMuts, if_pos hs, ht]
    rfl

theorem progress_hook_updates_witness :
    applyHook initJob exampleHook =
      { initJob with progress := 50, speed := 7, eta := 3 }
    ∧ applyHook initJob exampleHookNoTotal = initJob := by
  constructor
  · have h := (progress_hook_updates initJob exampleHook).1 rfl (by decide)
    rw [h]
    have : round1 ((exampleHook.downloaded_bytes.getD 0 : ℚ) /
        (pythonTotal exampleHook : ℚ) * 100) = 50 := by
      rw [round1, roundHalfEven, ratFloor_eq_floor]
      norm_num [exampleHook, pythonTotal]
    rw [this]
    rfl
  · exact (progress_hook_updates initJob _).2 rfl (by decide)

/-! ## Submission and polling (C4) -/

/-- C4 counterexample: the job record is not inserted by `start_download`
before the identifier is returned — the registry the handler returns does
not contain the new identifier, so an immediate poll that runs before the
background thread's first step yields 404. -/
theorem start_download_insert_cex :
    ¬ (∀ (req : DlRequest) (newId : String) (reg : Registry)
        (res : String × Registry × Spawn),
        start_download req newId reg = .ok res →
        get_progress res.2.1 res.1 ≠ .notFound) := by
  intro h
  exact h ⟨"https://example.com/v1", none⟩ "d1" []
    ("d1", [], ⟨"https://example.com/v1", "d1", 4320⟩) (by decide) (by decide)

/-- C4 (amended): `start_download` returns the identifier and spawns the
worker while leaving the registry unchanged; the insertion of the fresh
record (status `starting`, zero progress, empty error) is the worker
thread's first action, and any poll made after that first action finds the
record. -/
theorem insert_is_first_worker_action (req : DlRequest) (newId : String)
    (reg : Registry) (h : req.url ≠ "") :
    start_download req newId reg =
      .ok (newId, reg, ⟨req.url, newId, normalizeQuality req.quality⟩)
    ∧ get_progress (registryInsertInit reg newId) newId = .ok initJob
    ∧ initJob.status = "starting" ∧ initJob.progress = 0
    ∧ initJob.error = none := by
  refine ⟨?_, ?_, rfl, rfl, rfl⟩
  · simp only [start_download]
    rw [if_neg h]
  · simp only [get_progress, registryInsertInit, List.lookup_cons, beq_self_eq_true]

theorem insert_is_first_worker_action_witness :
    start_download ⟨"https://example.com/v1", none⟩ "d1" [] =
      .ok ("d1", [], ⟨"https://example.com/v1", "d1", 4320⟩)
    ∧ get_progress (registryInsertInit [] "d1") "d1" = .ok initJob := by
  obtain ⟨h1, h2, _⟩ :=
    insert_is_first_worker_action ⟨"https://example.com/v1", none⟩ "d1" [] (by decide)
  exact ⟨h1, h2⟩

/-! ## File retrieval (C9) -/

theorem mp3_data_suffix (w : List Char) :
    List.isSuffixOf (".mp3" : String).data
      ((((w ++ ['.', 'm', 'p', '3']).reverse.takeWhile fun c => !(c == '/')).reverse).map
        Char.toLower) = true := by
  have h1 : (w ++ ['.', 'm', 'p', '3']).reverse = ['3', 'p', 'm', '.'] ++ w.reverse := by
    rw [List.reverse_append]
    rfl
  rw [h1, List.takeWhile_append, if_pos (by decide), List.reverse_append, List.map_append]
  apply List.isSuffixOf_iff_suffix.mpr
  have h2 : List.map Char.toLower ['3', 'p', 'm', '.'].reverse = ['.', 'm', 'p', '3'] := rfl
  rw [h2]
  exact List.suffix_append _ _

/-- Filenames recorded for audio-only jobs end in `.mp3` even after the
`basename`-and-lowercase treatment `get_file` applies. -/
theorem audio_output_is_mp3 (fn : String) :
    endsWithStr (toLowerStr (basename (successFilename 0 fn))) ".mp3" = true := by
  have h : successFilename 0 fn = rsplitHead fn ++ ".mp3" := by
    rw [successFilename, if_pos rfl]
  rw [h]
  have hdata : (rsplitHead fn ++ (".mp3" : String)).data =
      (rsplitHead fn).data ++ ['.', 'm', 'p', '3'] := by
    rw [String.data_append]
  show List.isSuffixOf (".mp3" : String).data
    ((((rsplitHead fn ++ ".mp3").data.reverse.takeWhile fun c => !(c == '/')).reverse).map
      Char.toLower) = true
  rw [hdata]
  exact mp3_data_suffix _

/-- C9: `get_file` answers 404 for an unknown identifier, 400 whenever the
job's status is not `completed` (so nothing is served before completion),
404 when the job is completed but the artifact is gone from disk, and
otherwise serves the recorded file with MIME type `audio/mpeg` exactly
when the lowered basename ends in `.mp3` — which holds for every
audio-only job's recorded filename — and `video/mp4` otherwise. -/
theorem get_file_gates (reg : Registry) (fe : String → Bool) (id : String) :
    (List.lookup id reg = none → (get_file reg fe id).code = 404)
    ∧ (∀ j, List.lookup id reg = some j → j.status ≠ "completed" →
        (get_file reg fe id).code = 400 ∧ (get_file reg fe id).servedPath = none)
    ∧ (∀ j, List.lookup id reg = some j → j.status = "completed" →
        fe j.filename = false →
        (get_file reg fe id).code = 404 ∧ (get_file reg fe id).servedPath = none)
    ∧ (∀ j, List.lookup id reg = some j → j.status = "completed" →
        fe j.filename = true →
        (get_file reg fe id).code = 200
        ∧ (get_file reg fe id).servedPath = some j.filename
        ∧ (get_file reg fe id).mimetype =
            some (if endsWithStr (toLowerStr (basename j.filename)) ".mp3"
              then "audio/mpeg" else "video/mp4"))
    ∧ (∀ fn, endsWithStr (toLowerStr (basename (successFilename 0 fn))) ".mp3" = true) := by
  refine ⟨?_, ?_, ?_, ?_, fun fn => audio_output_is_mp3 fn⟩
  · intro h
    simp only [get_file, h]
  · intro j hj hs
    simp only [get_file, hj]
    rw [if_pos hs]
    exact ⟨rfl, rfl⟩
  · intro j hj hs hfe
    simp only [get_file, hj]
    rw [if_neg (by simp [hs]), hfe]
    exact ⟨rfl, rfl⟩
  · intro j hj hs hfe
    simp only [get_file, hj]
    rw [if_neg (by simp [hs]), hfe]
    exact ⟨rfl, rfl, rfl⟩

theorem get_file_gates_witness :
    (get_file wReg (fun p => p == "/downloads/t.mp3") "zz").code = 404
    ∧ (get_file [("a", initJob)] (fun p => p == "/downloads/t.mp3") "a").code = 400
    ∧ (get_file wReg (fun _ => false) "a").code = 404
    ∧ (get_file wReg (fun p => p == "/downloads/t.mp3") "a").code = 200
    ∧ (get_file wReg (fun p => p == "/downloads/t.mp3") "a").mimetype =
        some "audio/mpeg" := by
  refine ⟨?_, ?_, ?_, ?_, ?_⟩
  · exact (get_file_gates wReg (fun p => p == "/downloads/t.mp3") "zz").1 (by decide)
  · exact ((get_file_gates [("a", initJob)] (fun p => p == "/downloads/t.mp3") "a").2.1
      initJob (by decide) (by decide)).1
  · exact ((get_file_gates wReg (fun _ => false) "a").2.2.1 wJob (by decide) (by decide)
      (by decide)).1
  · exact ((get_file_gates wReg (fun p => p == "/downloads/t.mp3") "a").2.2.2.1 wJob
      (by decide) (by decide) (by decide)).1
  · have h := ((get_file_gates wReg (fun p => p == "/downloads/t.mp3") "a").2.2.2.1 wJob
      (by decide) (by decide) (by decide)).2.2
    rw [h]
    decide

/-! ## Basic facts about write lists and observable states -/

theorem statesFrom_ne_nil (j : Job) (l : List Mut) : statesFrom j l ≠ [] := by
  cases l <;> simp [statesFrom]

theorem execMuts_append (j : Job) (l₁ l₂ : List Mut) :
    execMuts j (l₁ ++ l₂) = execMuts (execMuts j l₁) l₂ := by
  induction l₁ generalizing j with
  | nil => rfl
  | cons m ms ih => exact ih (applyMut j m)

theorem statesFrom_append (j : Job) (l₁ l₂ : List Mut) :
    statesFrom j (l₁ ++ l₂) =
      (statesFrom j l₁).dropLast ++ statesFrom (execMuts j l₁) l₂ := by
  induction l₁ generalizing j with
  | nil => simp [statesFrom, execMuts]
  | cons m ms ih =>
    show j :: statesFrom (applyMut j m) (ms ++ l₂) = _
    rw [ih]
    show _ = (j :: statesFrom (applyMut j m) ms).dropLast ++ _
    rw [List.dropLast_cons_of_ne_nil (statesFrom_ne_nil _ _)]
    rfl

theorem mem_dropLast_statesFrom {x : Job} {j : Job} {l : List Mut}
    (h : x ∈ (statesFrom j l).dropLast) : x ∈ statesFrom j l :=
  (List.dropLast_sublist _).subset h

/-- Generic invariant propagation along a write list. -/
theorem statesFrom_inv (P : Job → Prop) :
    ∀ (ms : List Mut) (j : Job), P j →
      (∀ jm m, m ∈ ms → P jm → P (applyMut jm m)) →
      (∀ x ∈ statesFrom j ms, P x) ∧ P (execMuts j ms) := by
  intro ms
  induction ms with
  | nil =>
    intro j hj _
    constructor
    · intro x hx
      simp only [statesFrom, List.mem_singleton] at hx
      rw [hx]; exact hj
    · exact hj
  | cons m ms ih =>
    intro j hj hstep
    have hj1 : P (applyMut j m) := hstep j m (by simp) hj
    obtain ⟨h1, h2⟩ := ih (applyMut j m) hj1
      (fun jm m' hm' => hstep jm m' (List.mem_cons_of_mem _ hm'))
    constructor
    · intro x hx
      rcases List.mem_cons.mp hx with rfl | hx
      · exact hj
      · exact h1 x hx
    · exact h2

/-! ## Facts about the progress-callback writes -/

theorem hookMuts_shapes (h : Hook) (m : Mut) (hm : m ∈ hookMuts h) :
    (∃ p, m = .setProgress p) ∨ (∃ v, m = .setSpeed v) ∨ (∃ v, m = .setEta v) ∨
      m = .setStatus "processing" := by
  simp only [hookMuts] at hm
  split at hm
  · split at hm
    · simp only [List.mem_cons, List.not_mem_nil, or_false] at hm
      rcases hm with rfl | rfl | rfl
      · exact Or.inl ⟨_, rfl⟩
      · exact Or.inr (Or.inl ⟨_, rfl⟩)
      · exact Or.inr (Or.inr (Or.inl ⟨_, rfl⟩))
    · simp at hm
  · split at hm
    · simp only [List.mem_cons, List.not_mem_nil, or_false] at hm
      rcases hm with rfl | rfl
      · exact Or.inl ⟨_, rfl⟩
      · exact Or.inr (Or.inr (Or.inr rfl))
    · simp at hm

theorem hookSeg_shapes (hs : List Hook) (m : Mut)
    (hm : m ∈ (hs.map hookMuts).flatten) :
    (∃ p, m = .setProgress p) ∨ (∃ v, m = .setSpeed v) ∨ (∃ v, m = .setEta v) ∨
      m = .setStatus "processing" := by
  rw [List.mem_flatten] at hm
  obtain ⟨l, hl, hml⟩ := hm
  rw [List.mem_map] at hl
  obtain ⟨hk, _, rfl⟩ := hl
  exact hookMuts_shapes hk m hml

theorem hookSeg_pre (hs : List Hook) (j : Job) (hp : PreInv j) :
    (∀ x ∈ statesFrom j (hs.map hookMuts).flatten, PreInv x) ∧
      PreInv (execMuts j (hs.map hookMuts).flatten) :=
  statesFrom_inv PreInv _ j hp (fun jm m hm hjm => by
    rcases hookSeg_shapes hs m hm with ⟨p, rfl⟩ | ⟨v, rfl⟩ | ⟨v, rfl⟩ | rfl
    · exact ⟨hjm.1, hjm.2⟩
    · exact ⟨hjm.1, hjm.2⟩
    · exact ⟨hjm.1, hjm.2⟩
    · exact ⟨hjm.1, Or.inr (Or.inr (Or.inr rfl))⟩)

/-! ## Step equations of the download retry loop -/

theorem loopFrom_succ (q : ℤ) (att : ℕ → AttemptSpec) (le : Option String)
    (fuel attempt : ℕ) :
    loopFrom q att le (fuel + 1) attempt =
      (match (att attempt).outcome with
       | .success fn =>
         (((att attempt).hooks.map hookMuts).flatten ++
           [.setFilename (successFilename q fn), .setStatus "completed",
            .setProgress 100], attempt + 1)
       | .failure m =>
         if isLockError m && decide (attempt < max_retries - 1) then
           (((att attempt).hooks.map hookMuts).flatten ++
             .sleep (2 ^ attempt) :: .setStatus "retrying" ::
               (loopFrom q att (some m) fuel (attempt + 1)).1,
            (loopFrom q att (some m) fuel (attempt + 1)).2)
         else
           (((att attempt).hooks.map hookMuts).flatten ++
             [.setStatus "error", .setError m], attempt + 1)) := by
  simp only [loopFrom]

theorem loopFrom_success_eq {q : ℤ} {att : ℕ → AttemptSpec} {le : Option String}
    {fuel attempt : ℕ} {fn : String} (h : (att attempt).outcome = .success fn) :
    loopFrom q att le (fuel + 1) attempt =
      (((att attempt).hooks.map hookMuts).flatten ++
        [.setFilename (successFilename q fn), .setStatus "completed",
         .setProgress 100], attempt + 1) := by
  rw [loopFrom_succ, h]

theorem loopFrom_retry_eq {q : ℤ} {att : ℕ → AttemptSpec} {le : Option String}
    {fuel attempt : ℕ} {m : String} (h : (att attempt).outcome = .failure m)
    (hl : isLockError m = true) (hg : attempt < max_retries - 1) :
    loopFrom q att le (fuel + 1) attempt =
      (((att attempt).hooks.map hookMuts).flatten ++
        .sleep (2 ^ attempt) :: .setStatus "retrying" ::
          (loopFrom q att (some m) fuel (attempt + 1)).1,
       (loopFrom q att (some m) fuel (attempt + 1)).2) := by
  rw [loopFrom_succ]
  simp only [h]
  rw [if_pos (by simp [hl, hg])]

theorem loopFrom_error_eq {q : ℤ} {att : ℕ → AttemptSpec} {le : Option String}
    {fuel attempt : ℕ} {m : String} (h : (att attempt).outcome = .failure m)
    (hc : (isLockError m && decide (attempt < max_retries - 1)) = false) :
    loopFrom q att le (fuel + 1) attempt =
      (((att attempt).hooks.map hookMuts).flatten ++
        [.setStatus "error", .setError m], attempt + 1) := by
  rw [loopFrom_succ]
  simp only [h]
  rw [if_neg (by simp [hc])]

/-! ## Shape of the download-phase observable states -/

/-- Every run of the retry loop produces a block of pre-terminal states
followed by exactly the two terminal-transition writes: either the
`error`-status write then the error-message write, or the
`completed`-status write (filename already in place) then the final
progress write. -/
theorem loop_shape (q : ℤ) (att : ℕ → AttemptSpec) :
    ∀ (fuel attempt : ℕ) (le : Option String) (j : Job),
      (0 < fuel ∨ le ≠ none) → PreInv j →
      ∃ A jt jl, statesFrom j (loopFrom q att le fuel attempt).1 = A ++ [jt, jl]
        ∧ (∀ x ∈ A, PreInv x)
        ∧ ((∃ m, jt.status = "error" ∧ jt.error = none
              ∧ jl = { jt with error := some m })
           ∨ (∃ i fn, (att i).outcome = .success fn
              ∧ jt.status = "completed" ∧ jt.error = none
              ∧ jt.filename = successFilename q fn
              ∧ jl = { jt with progress := 100 })) := by
  intro fuel
  induction fuel with
  | zero =>
    intro attempt le j h hp
    rcases h with h | h
    · omega
    · match le with
      | some m =>
        refine ⟨[j], { j with status := "error" },
          { j with status := "error", error := some m }, ?_, ?_, ?_⟩
        · simp [loopFrom, statesFrom, applyMut]
        · intro x hx
          simp only [List.mem_singleton] at hx
          rw [hx]; exact hp
        · exact Or.inl ⟨m, rfl, hp.1, rfl⟩
      | none => simp at h
  | succ f ih =>
    intro attempt le j _ hp
    cases houtcome : (att attempt).outcome with
    | success fn =>
      rw [loopFrom_success_eq houtcome]
      show ∃ A jt jl, statesFrom j
        (((att attempt).hooks.map hookMuts).flatten ++ _) = A ++ [jt, jl] ∧ _
      rw [statesFrom_append]
      obtain ⟨hallpre, hexecpre⟩ := hookSeg_pre (att attempt).hooks j hp
      refine ⟨(statesFrom j ((att attempt).hooks.map hookMuts).flatten).dropLast ++
        [execMuts j ((att attempt).hooks.map hookMuts).flatten,
         { execMuts j ((att attempt).hooks.map hookMuts).flatten with
           filename := successFilename q fn }],
        { execMuts j ((att attempt).hooks.map hookMuts).flatten with
          filename := successFilename q fn, status := "completed" },
        { execMuts j ((att attempt).hooks.map hookMuts).flatten with
          filename := successFilename q fn, status := "completed", progress := 100 },
        ?_, ?_, ?_⟩
      · simp [statesFrom, applyMut]
      · intro x hx
        rcases List.mem_append.mp hx with hx | hx
        · exact hallpre x (mem_dropLast_statesFrom hx)
        · rcases List.mem_cons.mp hx with rfl | hx
          · exact hexecpre
          · rcases List.mem_cons.mp hx with rfl | hx
            · exact ⟨hexecpre.1, hexecpre.2⟩
            · simp at hx
      · exact Or.inr ⟨attempt, fn, houtcome, rfl, hexecpre.1, rfl, rfl⟩
    | failure m =>
      by_cases hcb : (isLockError m && decide (attempt < max_retries - 1)) = true
      · have hl : isLockError m = true := ((Bool.and_eq_true _ _).mp hcb).1
        have hg : attempt < max_retries - 1 :=
          of_decide_eq_true ((Bool.and_eq_true _ _).mp hcb).2
        rw [loopFrom_retry_eq houtcome hl hg]
        show ∃ A jt jl, statesFrom j
          (((att attempt).hooks.map hookMuts).flatten ++ _) = A ++ [jt, jl] ∧ _
        rw [statesFrom_append]
        obtain ⟨hallpre, hexecpre⟩ := hookSeg_pre (att attempt).hooks j hp
        have hjr : PreInv { execMuts j ((att attempt).hooks.map hookMuts).flatten with
            status := "retrying" } :=
          ⟨hexecpre.1, Or.inr (Or.inr (Or.inl rfl))⟩
        obtain ⟨A, jt, jl, hEq, hA, hend⟩ :=
          ih (attempt + 1) (some m) _ (Or.inr (by simp)) hjr
        refine ⟨(statesFrom j ((att attempt).hooks.map hookMuts).flatten).dropLast ++
          execMuts j ((att attempt).hooks.map hookMuts).flatten ::
          execMuts j ((att attempt).hooks.map hookMuts).flatten :: A, jt, jl,
          ?_, ?_, hend⟩
        · have hsf : statesFrom (execMuts j ((att attempt).hooks.map hookMuts).flatten)
              (.sleep (2 ^ attempt) :: .setStatus "retrying" ::
                (loopFrom q att (some m) f (attempt + 1)).1) =
              execMuts j ((att attempt).hooks.map hookMuts).flatten ::
              execMuts j ((att attempt).hooks.map hookMuts).flatten ::
              statesFrom { execMuts j ((att attempt).hooks.map hookMuts).flatten with
                status := "retrying" } (loopFrom q att (some m) f (attempt + 1)).1 := by
            simp [statesFrom, applyMut]
          rw [hsf, hEq]
          simp
        · intro x hx
          rcases List.mem_append.mp hx with hx | hx
          · exact hallpre x (mem_dropLast_statesFrom hx)
          · rcases List.mem_cons.mp hx with rfl | hx
            · exact hexecpre
            · rcases List.mem_cons.mp hx with rfl | hx
              · exact hexecpre
              · exact hA x hx
      · have hcf : (isLockError m && decide (attempt < max_retries - 1)) = false := by
          revert hcb
          cases isLockError m && decide (attempt < max_retries - 1) <;> simp
        rw [loopFrom_error_eq houtcome hcf]
        show ∃ A jt jl, statesFrom j
          (((att attempt).hooks.map hookMuts).flatten ++ _) = A ++ [jt, jl] ∧ _
        rw [statesFrom_append]
        obtain ⟨hallpre, hexecpre⟩ := hookSeg_pre (att attempt).hooks j hp
        refine ⟨(statesFrom j ((att attempt).hooks.map hookMuts).flatten).dropLast ++
          [execMuts j ((att attempt).hooks.map hookMuts).flatten],
          { execMuts j ((att attempt).hooks.map hookMuts).flatten with status := "error" },
          { execMuts j ((att attempt).hooks.map hookMuts).flatten with
            status := "error", error := some m },
          ?_, ?_, Or.inl ⟨m, rfl, hexecpre.1, rfl⟩⟩
        · simp [statesFrom, applyMut]
        · intro x hx
          rcases List.mem_append.mp hx with hx | hx
          · exact hallpre x (mem_dropLast_statesFrom hx)
          · rcases List.mem_cons.mp hx with rfl | hx
            · exact hexecpre
            · simp at hx

/-- The observable states of a whole scenario decompose as pre-terminal
states followed by the two terminal-transition writes. -/
theorem trace_shape (sc : Scenario) :
    ∃ A jt jl, states sc = A ++ [jt, jl]
      ∧ (∀ x ∈ A, PreInv x)
      ∧ ((∃ m, jt.status = "error" ∧ jt.error = none
            ∧ jl = { jt with error := some m })
         ∨ (∃ i fn, (attemptAt sc i).outcome = .success fn
            ∧ jt.status = "completed" ∧ jt.error = none
            ∧ jt.filename = successFilename sc.quality_height fn
            ∧ jl = { jt with progress := 100 })) := by
  rw [states, traceOf]
  cases hm : sc.metaResult with
  | error m =>
    refine ⟨[initJob], { initJob with status := "error" },
      { initJob with status := "error", error := some m }, ?_, ?_, ?_⟩
    · simp [statesFrom, applyMut]
    · intro x hx
      simp only [List.mem_singleton] at hx
      rw [hx]
      exact ⟨rfl, Or.inl rfl⟩
    · exact Or.inl ⟨m, rfl, rfl, rfl⟩
  | ok meta =>
    show ∃ A jt jl, statesFrom initJob
      ([.setTitle (sanitize_filename meta.title), .setThumbnail meta.thumbnail,
        .setDuration meta.duration, .setStatus "downloading"] ++ (loopRun sc).1) =
      A ++ [jt, jl] ∧ _
    rw [statesFrom_append]
    have hj4 : PreInv (execMuts initJob
        [.setTitle (sanitize_filename meta.title), .setThumbnail meta.thumbnail,
         .setDuration meta.duration, .setStatus "downloading"]) := by
      exact ⟨rfl, Or.inr (Or.inl rfl)⟩
    obtain ⟨A, jt, jl, hEq, hA, hend⟩ :=
      loop_shape sc.quality_height (attemptAt sc) max_retries 0 none _
        (Or.inl (by rw [max_retries]; omega)) hj4
    rw [loopRun]
    refine ⟨(statesFrom initJob
      [.setTitle (sanitize_filename meta.title), .setThumbnail meta.thumbnail,
       .setDuration meta.duration, .setStatus "downloading"]).dropLast ++ A, jt, jl,
      ?_, ?_, hend⟩
    · rw [hEq]
      simp
    · intro x hx
      rcases List.mem_append.mp hx with hx | hx
      · have hpre : (statesFrom initJob
            [Mut.setTitle (sanitize_filename meta.title), .setThumbnail meta.thumbnail,
             .setDuration meta.duration, .setStatus "downloading"]).dropLast =
            [initJob,
             { initJob with title := sanitize_filename meta.title },
             { initJob with title := sanitize_filename meta.title, thumbnail := meta.thumbnail },
             { initJob with title := sanitize_filename meta.title, thumbnail := meta.thumbnail, duration := meta.duration }] := by
          simp [statesFrom, applyMut, List.dropLast]
        rw [hpre] at hx
        simp only [List.mem_cons, List.not_mem_nil, or_false] at hx
        rcases hx with rfl | rfl | rfl | rfl
        · exact ⟨rfl, Or.inl rfl⟩
        · exact ⟨rfl, Or.inl rfl⟩
        · exact ⟨rfl, Or.inl rfl⟩
        · exact ⟨rfl, Or.inl rfl⟩
      · exact hA x hx

/-! ## Mutual-exclusivity invariants (C1) -/

theorem successFilename_ne_empty (q : ℤ) (fn : String) (h : fn ≠ "") :
    successFilename q fn ≠ "" := by
  rw [successFilename]
  by_cases hq : q = 0
  · rw [if_pos hq]
    intro hc
    have hlen := congrArg String.length hc
    rw [String.length_append] at hlen
    have h4 : (".mp3" : String).length = 4 := rfl
    have h0 : ("" : String).length = 0 := rfl
    rw [h4, h0] at hlen
    omega
  · rw [if_neg hq]; exact h

theorem PreInv_not_terminal {x : Job} (hp : PreInv x) :
    x.status ≠ "completed" ∧ x.status ≠ "error" := by
  rcases hp.2 with h | h | h | h <;> rw [h] <;> exact ⟨by decide, by decide⟩

/-- C1 counterexample: the claimed two-way invariants fail at observable
points — after a metadata failure the status already reads `error` while
the error message is still unwritten (`None`), and on the success path the
filename is already non-empty one write before the status flips to
`completed`. -/
theorem mutual_exclusivity_cex :
    (¬ ∀ (sc : Scenario), ∀ j ∈ states sc,
        ((j.filename ≠ "" ↔ j.status = "completed")
         ∧ (j.error.getD "" ≠ "" ↔ j.status = "error")))
    ∧ (obsAt scMetaErr 1).status = "error" ∧ (obsAt scMetaErr 1).error = none
    ∧ (obsAt scOnePlain 5).filename ≠ ""
    ∧ (obsAt scOnePlain 5).status ≠ "completed" := by
  refine ⟨?_, by decide, by decide, by decide, by decide⟩
  intro h
  have h1 := (h scMetaErr (obsAt scMetaErr 1) (by decide)).2.mpr (by decide)
  exact h1 (by decide)

/-- C1 (amended): at every observable point a `completed` status implies a
non-empty filename (the filename write precedes the status flip) and a
non-empty error message implies `error` status; the two converses do not
hold, because the error transition writes status before the message and
the filename write itself precedes the `completed` flip. -/
theorem mutual_exclusivity_amended (sc : Scenario)
    (hfn : ∀ i fn, (attemptAt sc i).outcome = .success fn → fn ≠ "") :
    ∀ j ∈ states sc,
      (j.status = "completed" → j.filename ≠ "")
      ∧ (j.error.getD "" ≠ "" → j.status = "error") := by
  obtain ⟨A, jt, jl, heq, hA, hend⟩ := trace_shape sc
  intro j hj
  rw [heq] at hj
  rcases List.mem_append.mp hj with hj | hj
  · have hp := hA j hj
    have hnt := PreInv_not_terminal hp
    refine ⟨fun hc => absurd hc hnt.1, fun hc => ?_⟩
    rw [hp.1] at hc
    simp at hc
  · rcases hend with ⟨m, hst, herr, hjl⟩ | ⟨i, fn, hout, hst, herr, hfil, hjl⟩
    · rcases List.mem_cons.mp hj with rfl | hj
      · refine ⟨fun hc => ?_, fun _ => hst⟩
        rw [hst] at hc
        exact absurd hc (by decide)
      · rcases List.mem_cons.mp hj with rfl | hj
        · subst hjl
          refine ⟨fun hc => ?_, fun _ => ?_⟩
          · have hc2 : jt.status = "completed" := hc
            rw [hst] at hc2
            exact absurd hc2 (by decide)
          · show jt.status = "error"
            exact hst
        · simp at hj
    · rcases List.mem_cons.mp hj with rfl | hj
      · refine ⟨fun _ => ?_, fun hc => ?_⟩
        · rw [hfil]
          exact successFilename_ne_empty _ fn (hfn i fn hout)
        · rw [herr] at hc
          simp at hc
      · rcases List.mem_cons.mp hj with rfl | hj
        · subst hjl
          refine ⟨fun _ => ?_, fun hc => ?_⟩
          · show jt.filename ≠ ""
            rw [hfil]
            exact successFilename_ne_empty _ fn (hfn i fn hout)
          · have hc2 : jt.error.getD "" ≠ "" := hc
            rw [herr] at hc2
            simp at hc2
        · simp at hj

theorem mutual_exclusivity_amended_witness :
    (∀ i fn, (attemptAt scOnePlain i).outcome = .success fn → fn ≠ "")
    ∧ ∀ j ∈ states scOnePlain,
        (j.status = "completed" → j.filename ≠ "")
        ∧ (j.error.getD "" ≠ "" → j.status = "error") := by
  have hfn : ∀ i fn, (attemptAt scOnePlain i).outcome = .success fn → fn ≠ "" := by
    intro i fn h
    match i with
    | 0 =>
      simp only [attemptAt, scOnePlain, AttemptOutcome.success.injEq] at h
      rw [← h]
      decide
    | 1 => simp [attemptAt, scOnePlain] at h
    | n + 2 => simp [attemptAt, scOnePlain] at h
  exact ⟨hfn, mutual_exclusivity_amended scOnePlain hfn⟩

/-! ## Terminal states are frozen (C3) -/

theorem getD_append_lt {A rest : List Job} {n : ℕ} (h : n < A.length) (d : Job) :
    (A ++ rest).getD n d = A.getD n d := by
  rw [List.getD_eq_getElem?_getD, List.getD_eq_getElem?_getD, List.getElem?_append,
    if_pos h]

theorem getD_append_ge {A rest : List Job} {n : ℕ} (h : A.length ≤ n) (d : Job) :
    (A ++ rest).getD n d = rest.getD (n - A.length) d := by
  rw [List.getD_eq_getElem?_getD, List.getD_eq_getElem?_getD, List.getElem?_append,
    if_neg (by omega)]

theorem getD_mem_of_lt {A : List Job} {n : ℕ} (h : n < A.length) (d : Job) :
    A.getD n d ∈ A := by
  rw [List.getD_eq_getElem?_getD, List.getElem?_eq_getElem h]
  exact List.getElem_mem h

/-- C3 counterexample: a record is still mutated right after the status
turns terminal — the error message (resp. the final progress write)
lands after the status flip, so two polls can both see a terminal status
yet different records. -/
theorem terminal_frozen_cex :
    ¬ (∀ (sc : Scenario) (i k : ℕ), i ≤ k →
        ((obsAt sc i).status = "completed" ∨ (obsAt sc i).status = "error") →
        obsAt sc k = obsAt sc i) := by
  intro h
  have h2 := h scMetaErr 1 2 (by omega) (Or.inr (by decide))
  exact absurd h2 (by decide)

/-- C3 (amended): once a poll observes a terminal status, the status never
changes again, and from the very next write on the record is frozen: every
poll from time `i+1` onwards returns one identical record (the terminal
transition's companion write is the only mutation that can still land
after the status flip). -/
theorem terminal_frozen_amended (sc : Scenario) (i k : ℕ)
    (hterm : (obsAt sc i).status = "completed" ∨ (obsAt sc i).status = "error")
    (hik : i + 1 ≤ k) :
    obsAt sc k = obsAt sc (i + 1)
    ∧ (obsAt sc k).status = (obsAt sc i).status := by
  obtain ⟨A, jt, jl, heq, hA, hend⟩ := trace_shape sc
  have hlen : (states sc).length = A.length + 2 := by
    rw [heq]
    simp
  have hl1 : (states sc).length - 1 = A.length + 1 := by omega
  have hstatus : jl.status = jt.status := by
    rcases hend with ⟨m, _, _, hjl⟩ | ⟨i', fn, _, _, _, _, hjl⟩ <;> rw [hjl]
  have hjtD : (A ++ [jt, jl]).getD A.length initJob = jt := by
    rw [getD_append_ge (le_refl _), Nat.sub_self]
    rfl
  have hjlD : (A ++ [jt, jl]).getD (A.length + 1) initJob = jl := by
    rw [getD_append_ge (by omega)]
    have hs : A.length + 1 - A.length = 1 := by omega
    rw [hs]
    rfl
  have hobs : ∀ n, obsAt sc n = (A ++ [jt, jl]).getD (min n (A.length + 1)) initJob := by
    intro n
    show (states sc).getD (min n ((states sc).length - 1)) initJob = _
    rw [hl1, heq]
  have htA : ¬ min i (A.length + 1) < A.length := by
    intro hlt
    have hmem := hA _ (getD_mem_of_lt hlt initJob)
    have hnt := PreInv_not_terminal hmem
    rw [hobs i, getD_append_lt hlt] at hterm
    rcases hterm with h | h
    · exact hnt.1 h
    · exact hnt.2 h
  have hcap : ∀ n, A.length + 1 ≤ n → obsAt sc n = jl := by
    intro n hn
    rw [hobs n]
    have hm : min n (A.length + 1) = A.length + 1 := by omega
    rw [hm, hjlD]
  rcases Nat.lt_or_ge i (A.length + 1) with hi | hi
  · -- then min i cap = i, and ¬ i < A.length forces i = A.length
    have hieq : i = A.length := by omega
    have hobsi : obsAt sc i = jt := by
      rw [hobs i]
      have hm : min i (A.length + 1) = A.length := by omega
      rw [hm, hjtD]
    have hk : obsAt sc k = jl := hcap k (by omega)
    have hi1 : obsAt sc (i + 1) = jl := hcap (i + 1) (by omega)
    rw [hk, hi1, hobsi, hstatus]
    exact ⟨rfl, rfl⟩
  · have hk : obsAt sc k = jl := hcap k (by omega)
    have hi1 : obsAt sc (i + 1) = jl := hcap (i + 1) (by omega)
    have hobsi : obsAt sc i = jl := hcap i (by omega)
    rw [hk, hi1, hobsi]
    exact ⟨rfl, rfl⟩

theorem terminal_frozen_amended_witness :
    ((obsAt scMetaErr 2).status = "completed" ∨ (obsAt scMetaErr 2).status = "error")
    ∧ obsAt scMetaErr 5 = obsAt scMetaErr 3
    ∧ (obsAt scMetaErr 5).status = (obsAt scMetaErr 2).status := by
  have h := terminal_frozen_amended scMetaErr 2 5 (Or.inr (by decide)) (by omega)
  exact ⟨Or.inr (by decide), h.1, h.2⟩

/-! ## Backoff and the `retrying` status (C5) -/

theorem hookSeg_not_sleep (hs : List Hook) {m : Mut}
    (hm : m ∈ (hs.map hookMuts).flatten) : ∀ n, m ≠ .sleep n := by
  intro n hc
  subst hc
  rcases hookSeg_shapes hs _ hm with ⟨p, h⟩ | ⟨v, h⟩ | ⟨v, h⟩ | h <;> simp at h

theorem sleepThenRetryB_append_of_no_sleep :
    ∀ (l₁ l₂ : List Mut), (∀ m ∈ l₁, ∀ n, m ≠ .sleep n) →
      sleepThenRetryB (l₁ ++ l₂) = sleepThenRetryB l₂ := by
  intro l₁
  induction l₁ with
  | nil => intro _ _; rfl
  | cons x t ih =>
    intro l₂ h
    cases x
    case sleep n => exact absurd rfl (h _ (by simp) n)
    all_goals exact ih l₂ (fun m hm => h m (List.mem_cons_of_mem _ hm))

theorem loop_sleepThenRetry (q : ℤ) (att : ℕ → AttemptSpec) :
    ∀ (fuel attempt : ℕ) (le : Option String),
      sleepThenRetryB (loopFrom q att le fuel attempt).1 = true := by
  intro fuel
  induction fuel with
  | zero =>
    intro attempt le
    match le with
    | some m => rfl
    | none => rfl
  | succ f ih =>
    intro attempt le
    cases houtcome : (att attempt).outcome with
    | success fn =>
      rw [loopFrom_success_eq houtcome]
      rw [sleepThenRetryB_append_of_no_sleep _ _ (fun m hm => hookSeg_not_sleep _ hm)]
      rfl
    | failure m =>
      by_cases hcb : (isLockError m && decide (attempt < max_retries - 1)) = true
      · have hl := ((Bool.and_eq_true _ _).mp hcb).1
        have hg := of_decide_eq_true ((Bool.and_eq_true _ _).mp hcb).2
        rw [loopFrom_retry_eq houtcome hl hg]
        rw [sleepThenRetryB_append_of_no_sleep _ _ (fun m hm => hookSeg_not_sleep _ hm)]
        have hstep : sleepThenRetryB (Mut.sleep (2 ^ attempt) :: Mut.setStatus "retrying" ::
            (loopFrom q att (some m) f (attempt + 1)).1) =
            (true && sleepThenRetryB (Mut.setStatus "retrying" ::
              (loopFrom q att (some m) f (attempt + 1)).1)) := rfl
        rw [hstep, Bool.true_and]
        exact ih (attempt + 1) (some m)
      · have hcf : (isLockError m && decide (attempt < max_retries - 1)) = false := by
          revert hcb
          cases isLockError m && decide (attempt < max_retries - 1) <;> simp
        rw [loopFrom_error_eq houtcome hcf]
        rw [sleepThenRetryB_append_of_no_sleep _ _ (fun m hm => hookSeg_not_sleep _ hm)]
        rfl

theorem hasMut_append (m : Mut) (l₁ l₂ : List Mut) :
    hasMut m (l₁ ++ l₂) = (hasMut m l₁ || hasMut m l₂) := by
  induction l₁ with
  | nil => simp [hasMut]
  | cons x t ih =>
    show (x == m || hasMut m (t ++ l₂)) = ((x == m || hasMut m t) || hasMut m l₂)
    rw [ih, Bool.or_assoc]

theorem hasMut_eq_false_of_not_mem (m : Mut) (l : List Mut)
    (h : ∀ x ∈ l, x ≠ m) : hasMut m l = false := by
  induction l with
  | nil => rfl
  | cons x t ih =>
    show (x == m || hasMut m t) = false
    rw [ih (fun y hy => h y (List.mem_cons_of_mem _ hy)), Bool.or_false]
    exact beq_eq_false_iff_ne.mpr (h x (by simp))

theorem hookSeg_no_downloading_write (hs : List Hook) :
    hasMut (.setStatus "downloading") ((hs.map hookMuts).flatten) = false :=
  hasMut_eq_false_of_not_mem _ _ (fun x hx => by
    rcases hookSeg_shapes hs x hx with ⟨p, rfl⟩ | ⟨v, rfl⟩ | ⟨v, rfl⟩ | rfl <;> simp)

theorem loop_no_downloading_write (q : ℤ) (att : ℕ → AttemptSpec) :
    ∀ (fuel attempt : ℕ) (le : Option String),
      hasMut (.setStatus "downloading") (loopFrom q att le fuel attempt).1 = false := by
  intro fuel
  induction fuel with
  | zero =>
    intro attempt le
    match le with
    | some m =>
      show hasMut (.setStatus "downloading") [.setStatus "error", .setError m] = false
      simp [hasMut]
    | none => rfl
  | succ f ih =>
    intro attempt le
    cases houtcome : (att attempt).outcome with
    | success fn =>
      rw [loopFrom_success_eq houtcome, hasMut_append,
        hookSeg_no_downloading_write, Bool.false_or]
      simp [hasMut]
    | failure m =>
      by_cases hcb : (isLockError m && decide (attempt < max_retries - 1)) = true
      · have hl := ((Bool.and_eq_true _ _).mp hcb).1
        have hg := of_decide_eq_true ((Bool.and_eq_true _ _).mp hcb).2
        rw [loopFrom_retry_eq houtcome hl hg, hasMut_append,
          hookSeg_no_downloading_write, Bool.false_or]
        show ((Mut.sleep (2 ^ attempt) == Mut.setStatus "downloading") ||
          ((Mut.setStatus "retrying" == Mut.setStatus "downloading") ||
            hasMut (.setStatus "downloading")
              (loopFrom q att (some m) f (attempt + 1)).1)) = false
        rw [ih (attempt + 1) (some m)]
        rfl
      · have hcf : (isLockError m && decide (attempt < max_retries - 1)) = false := by
          revert hcb
          cases isLockError m && decide (attempt < max_retries - 1) <;> simp
        rw [loopFrom_error_eq houtcome hcf, hasMut_append,
          hookSeg_no_downloading_write, Bool.false_or]
        simp [hasMut]

/-- C5 counterexample: the backoff wait happens while the status still
reads `downloading` (the `retrying` write lands only after the sleep), and
after `retrying` is written no state ever reads `downloading` again in the
retry attempt. -/
theorem retrying_during_wait_cex :
    (¬ ∀ (sc : Scenario) (idx d : ℕ),
        (traceOf sc).get? idx = some (.sleep d) →
        ((states sc).getD idx initJob).status = "retrying")
    ∧ (traceOf scOneLock).get? 4 = some (.sleep 1)
    ∧ ((states scOneLock).getD 4 initJob).status = "downloading"
    ∧ (traceOf scOneLock).get? 5 = some (.setStatus "retrying")
    ∧ ((states scOneLock).drop 6).all (fun j => !(j.status == "downloading")) = true := by
  refine ⟨?_, by decide, by decide, by decide, by decide⟩
  intro h
  have h2 := h scOneLock 4 1 (by decide)
  exact absurd h2 (by decide)

/-- C5 (amended): in every scenario each backoff sleep is immediately
followed by the `retrying` status write (so the wait elapses before the
status changes), and the download phase never writes status `downloading`
again — there is no `retrying` to `downloading` transition when the retry
attempt starts. -/
theorem backoff_then_retrying (sc : Scenario) :
    sleepThenRetryB (traceOf sc) = true
    ∧ hasMut (.setStatus "downloading") (loopRun sc).1 = false := by
  constructor
  · rw [traceOf]
    cases hm : sc.metaResult with
    | error m => rfl
    | ok meta => exact loop_sleepThenRetry sc.quality_height (attemptAt sc) max_retries 0 none
  · exact loop_no_downloading_write sc.quality_height (attemptAt sc) max_retries 0 none

/-! ## The retry policy (C2) -/

theorem loop_attempts_le (q : ℤ) (att : ℕ → AttemptSpec) :
    ∀ (fuel attempt : ℕ) (le : Option String),
      (loopFrom q att le fuel attempt).2 ≤ attempt + fuel := by
  intro fuel
  induction fuel with
  | zero =>
    intro attempt le
    match le with
    | some m => show attempt ≤ attempt + 0; omega
    | none => show attempt ≤ attempt + 0; omega
  | succ f ih =>
    intro attempt le
    cases houtcome : (att attempt).outcome with
    | success fn =>
      rw [loopFrom_success_eq houtcome]
      show attempt + 1 ≤ attempt + (f + 1)
      omega
    | failure m =>
      by_cases hcb : (isLockError m && decide (attempt < max_retries - 1)) = true
      · have hl := ((Bool.and_eq_true _ _).mp hcb).1
        have hg := of_decide_eq_true ((Bool.and_eq_true _ _).mp hcb).2
        rw [loopFrom_retry_eq houtcome hl hg]
        show (loopFrom q att (some m) f (attempt + 1)).2 ≤ attempt + (f + 1)
        have := ih (attempt + 1) (some m)
        omega
      · have hcf : (isLockError m && decide (attempt < max_retries - 1)) = false := by
          revert hcb
          cases isLockError m && decide (attempt < max_retries - 1) <;> simp
        rw [loopFrom_error_eq houtcome hcf]
        show attempt + 1 ≤ attempt + (f + 1)
        omega

theorem loop_attempts_ge (q : ℤ) (att : ℕ → AttemptSpec) :
    ∀ (fuel attempt : ℕ) (le : Option String),
      attempt ≤ (loopFrom q att le fuel attempt).2 := by
  intro fuel
  induction fuel with
  | zero =>
    intro attempt le
    match le with
    | some m => exact le_refl _
    | none => exact le_refl _
  | succ f ih =>
    intro attempt le
    cases houtcome : (att attempt).outcome with
    | success fn =>
      rw [loopFrom_success_eq houtcome]
      omega
    | failure m =>
      by_cases hcb : (isLockError m && decide (attempt < max_retries - 1)) = true
      · have hl := ((Bool.and_eq_true _ _).mp hcb).1
        have hg := of_decide_eq_true ((Bool.and_eq_true _ _).mp hcb).2
        rw [loopFrom_retry_eq houtcome hl hg]
        show attempt ≤ (loopFrom q att (some m) f (attempt + 1)).2
        have := ih (attempt + 1) (some m)
        omega
      · have hcf : (isLockError m && decide (attempt < max_retries - 1)) = false := by
          revert hcb
          cases isLockError m && decide (attempt < max_retries - 1) <;> simp
        rw [loopFrom_error_eq houtcome hcf]
        omega

theorem loop_attempts_ge1 (q : ℤ) (att : ℕ → AttemptSpec)
    (fuel attempt : ℕ) (le : Option String) (hf : 0 < fuel) :
    attempt + 1 ≤ (loopFrom q att le fuel attempt).2 := by
  match fuel, hf with
  | f + 1, _ =>
    cases houtcome : (att attempt).outcome with
    | success fn =>
      rw [loopFrom_success_eq houtcome]
    | failure m =>
      by_cases hcb : (isLockError m && decide (attempt < max_retries - 1)) = true
      · have hl := ((Bool.and_eq_true _ _).mp hcb).1
        have hg := of_decide_eq_true ((Bool.and_eq_true _ _).mp hcb).2
        rw [loopFrom_retry_eq houtcome hl hg]
        show attempt + 1 ≤ (loopFrom q att (some m) f (attempt + 1)).2
        exact loop_attempts_ge q att f (attempt + 1) (some m)
      · have hcf : (isLockError m && decide (attempt < max_retries - 1)) = false := by
          revert hcb
          cases isLockError m && decide (attempt < max_retries - 1) <;> simp
        rw [loopFrom_error_eq houtcome hcf]

theorem sleepsOf_append (l₁ l₂ : List Mut) :
    sleepsOf (l₁ ++ l₂) = sleepsOf l₁ ++ sleepsOf l₂ :=
  List.filterMap_append _ _ _

theorem sleepsOf_hookSeg (hs : List Hook) :
    sleepsOf ((hs.map hookMuts).flatten) = [] := by
  rw [sleepsOf, List.filterMap_eq_nil_iff]
  intro m hm
  rcases hookSeg_shapes hs m hm with ⟨p, rfl⟩ | ⟨v, rfl⟩ | ⟨v, rfl⟩ | rfl <;> rfl

/-- The waits performed by the loop from a given attempt index onwards are
exactly `2^attempt, 2^(attempt+1), …`, one per retried attempt. -/
theorem loop_sleeps (q : ℤ) (att : ℕ → AttemptSpec) :
    ∀ (fuel attempt : ℕ) (le : Option String), attempt + fuel = max_retries →
      sleepsOf (loopFrom q att le fuel attempt).1 =
        (List.range' attempt ((loopFrom q att le fuel attempt).2 - 1 - attempt)).map
          (fun k => 2 ^ k) := by
  intro fuel
  induction fuel with
  | zero =>
    intro attempt le _
    match le with
    | some m =>
      show sleepsOf [.setStatus "error", .setError m] =
        (List.range' attempt (attempt - 1 - attempt)).map (fun k => 2 ^ k)
      have hz : attempt - 1 - attempt = 0 := by omega
      rw [hz]
      rfl
    | none =>
      show sleepsOf [] = (List.range' attempt (attempt - 1 - attempt)).map (fun k => 2 ^ k)
      have hz : attempt - 1 - attempt = 0 := by omega
      rw [hz]
      rfl
  | succ f ih =>
    intro attempt le hrel
    cases houtcome : (att attempt).outcome with
    | success fn =>
      rw [loopFrom_success_eq houtcome]
      rw [sleepsOf_append, sleepsOf_hookSeg]
      have hz : attempt + 1 - 1 - attempt = 0 := by omega
      rw [hz]
      rfl
    | failure m =>
      by_cases hcb : (isLockError m && decide (attempt < max_retries - 1)) = true
      · have hl := ((Bool.and_eq_true _ _).mp hcb).1
        have hg := of_decide_eq_true ((Bool.and_eq_true _ _).mp hcb).2
        rw [loopFrom_retry_eq houtcome hl hg]
        rw [sleepsOf_append, sleepsOf_hookSeg]
        have hcons : sleepsOf (Mut.sleep (2 ^ attempt) :: Mut.setStatus "retrying" ::
            (loopFrom q att (some m) f (attempt + 1)).1) =
            2 ^ attempt :: sleepsOf (loopFrom q att (some m) f (attempt + 1)).1 := rfl
        rw [hcons, ih (attempt + 1) (some m) (by omega)]
        have hge : attempt + 2 ≤ (loopFrom q att (some m) f (attempt + 1)).2 := by
          have hfpos : 0 < f := by
            rw [max_retries] at hrel hg
            omega
          exact loop_attempts_ge1 q att f (attempt + 1) (some m) hfpos
        have hcount : (loopFrom q att (some m) f (attempt + 1)).2 - 1 - attempt =
            ((loopFrom q att (some m) f (attempt + 1)).2 - 1 - (attempt + 1)) + 1 := by
          omega
        rw [hcount, List.range'_succ, List.map_cons]
        rfl
      · have hcf : (isLockError m && decide (attempt < max_retries - 1)) = false := by
          revert hcb
          cases isLockError m && decide (attempt < max_retries - 1) <;> simp
        rw [loopFrom_error_eq houtcome hcf]
        rw [sleepsOf_append, sleepsOf_hookSeg]
        have hz : attempt + 1 - 1 - attempt = 0 := by omega
        rw [hz]
        rfl

/-- Executing writes that end with the two error-transition writes leaves
the record in `error` status carrying the given message. -/
theorem exec_trailing_error (j : Job) (l : List Mut) (m : String) :
    (execMuts j (l ++ [.setStatus "error", .setError m])).status = "error"
    ∧ (execMuts j (l ++ [.setStatus "error", .setError m])).error = some m := by
  rw [execMuts_append]
  exact ⟨rfl, rfl⟩

/-- The final record of a scenario whose download phase ends in the two
error-transition writes. -/
theorem finalState_error (sc : Scenario) (meta : Metadata)
    (hm : sc.metaResult = .ok meta) (X : List Mut) (m : String)
    (hloop : (loopRun sc).1 = X ++ [.setStatus "error", .setError m]) :
    (finalState sc).status = "error" ∧ (finalState sc).error = some m := by
  rw [finalState, traceOf, hm]
  show (execMuts initJob ([.setTitle (sanitize_filename meta.title),
    .setThumbnail meta.thumbnail, .setDuration meta.duration,
    .setStatus "downloading"] ++ (loopRun sc).1)).status = "error" ∧ _
  rw [hloop, ← List.append_assoc]
  exact exec_trailing_error _ _ m

/-- C2: the download loop executes at most 3 attempts; the waits between
attempts are exactly `2^0, 2^1, …` (so delays 1 and 2 for the at most two
waits); a failure whose message is not classified as file-lock contention
at any executed attempt ends the download phase immediately after that
attempt, and the job becomes terminal `error` carrying that message; and
three consecutive contention failures exhaust exactly the 3 attempts with
backoff delays 1 and 2 and leave the job in `error` with the last
message. -/
theorem retry_policy (sc : Scenario) :
    (loopRun sc).2 ≤ 3
    ∧ sleepsOf (loopRun sc).1 =
        (List.range ((loopRun sc).2 - 1)).map (fun k => 2 ^ k)
    ∧ (∀ i m, i < 3 →
        (∀ k, k < i → ∃ mk, (attemptAt sc k).outcome = .failure mk
          ∧ isLockError mk = true) →
        (attemptAt sc i).outcome = .failure m → isLockError m = false →
        (loopRun sc).2 = i + 1
        ∧ ∀ meta, sc.metaResult = .ok meta →
            (finalState sc).status = "error" ∧ (finalState sc).error = some m)
    ∧ (∀ m0 m1 m2,
        (attemptAt sc 0).outcome = .failure m0 → isLockError m0 = true →
        (attemptAt sc 1).outcome = .failure m1 → isLockError m1 = true →
        (attemptAt sc 2).outcome = .failure m2 → isLockError m2 = true →
        (loopRun sc).2 = 3 ∧ sleepsOf (loopRun sc).1 = [1, 2]
        ∧ ∀ meta, sc.metaResult = .ok meta →
            (finalState sc).status = "error" ∧ (finalState sc).error = some m2) := by
  have hsleeps : sleepsOf (loopRun sc).1 =
      (List.range ((loopRun sc).2 - 1)).map (fun k => 2 ^ k) := by
    have h := loop_sleeps sc.quality_height (attemptAt sc) max_retries 0 none rfl
    rw [Nat.sub_zero] at h
    rw [List.range_eq_range']
    exact h
  refine ⟨?_, hsleeps, ?_, ?_⟩
  · have h := loop_attempts_le sc.quality_height (attemptAt sc) max_retries 0 none
    have h3 : max_retries = 3 := rfl
    rw [h3] at h
    show (loopFrom sc.quality_height (attemptAt sc) none max_retries 0).2 ≤ 3
    rw [h3]
    omega
  · intro i m hi hreach hfail hnl
    interval_cases i
    · have hcf : (isLockError m && decide (0 < max_retries - 1)) = false := by
        rw [hnl]; rfl
      have hrun : loopRun sc =
          (((attemptAt sc 0).hooks.map hookMuts).flatten ++
            [.setStatus "error", .setError m], 1) := by
        rw [loopRun]
        exact @loopFrom_error_eq sc.quality_height (attemptAt sc) none 2 0 m hfail hcf
      exact ⟨by rw [hrun], fun meta hmeta =>
        finalState_error sc meta hmeta _ m (by rw [hrun])⟩
    · obtain ⟨m0, h00, h0l⟩ := hreach 0 (by omega)
      have hstep0 : loopFrom sc.quality_height (attemptAt sc) none max_retries 0 =
          (((attemptAt sc 0).hooks.map hookMuts).flatten ++
            .sleep (2 ^ 0) :: .setStatus "retrying" ::
              (loopFrom sc.quality_height (attemptAt sc) (some m0) 2 1).1,
           (loopFrom sc.quality_height (attemptAt sc) (some m0) 2 1).2) :=
        @loopFrom_retry_eq sc.quality_height (attemptAt sc) none 2 0 m0 h00 h0l
          (by decide)
      have hcf : (isLockError m && decide (1 < max_retries - 1)) = false := by
        rw [hnl]; rfl
      have hstep1 : loopFrom sc.quality_height (attemptAt sc) (some m0) 2 1 =
          (((attemptAt sc 1).hooks.map hookMuts).flatten ++
            [.setStatus "error", .setError m], 2) :=
        @loopFrom_error_eq sc.quality_height (attemptAt sc) (some m0) 1 1 m hfail hcf
      have hrun : loopRun sc =
          (((attemptAt sc 0).hooks.map hookMuts).flatten ++
            .sleep (2 ^ 0) :: .setStatus "retrying" ::
              (((attemptAt sc 1).hooks.map hookMuts).flatten ++
                [.setStatus "error", .setError m]), 2) := by
        rw [loopRun, hstep0, hstep1]
      refine ⟨by rw [hrun], fun meta hmeta => finalState_error sc meta hmeta
        (((attemptAt sc 0).hooks.map hookMuts).flatten ++
          .sleep (2 ^ 0) :: .setStatus "retrying" ::
            ((attemptAt sc 1).hooks.map hookMuts).flatten) m ?_⟩
      rw [hrun]
      simp
    · obtain ⟨m0, h00, h0l⟩ := hreach 0 (by omega)
      obtain ⟨m1, h11, h1l⟩ := hreach 1 (by omega)
      have hstep0 : loopFrom sc.quality_height (attemptAt sc) none max_retries 0 =
          (((attemptAt sc 0).hooks.map hookMuts).flatten ++
            .sleep (2 ^ 0) :: .setStatus "retrying" ::
              (loopFrom sc.quality_height (attemptAt sc) (some m0) 2 1).1,
           (loopFrom sc.quality_height (attemptAt sc) (some m0) 2 1).2) :=
        @loopFrom_retry_eq sc.quality_height (attemptAt sc) none 2 0 m0 h00 h0l
          (by decide)
      have hstep1 : loopFrom sc.quality_height (attemptAt sc) (some m0) 2 1 =
          (((attemptAt sc 1).hooks.map hookMuts).flatten ++
            .sleep (2 ^ 1) :: .setStatus "retrying" ::
              (loopFrom sc.quality_height (attemptAt sc) (some m1) 1 2).1,
           (loopFrom sc.quality_height (attemptAt sc) (some m1) 1 2).2) :=
        @loopFrom_retry_eq sc.quality_height (attemptAt sc) (some m0) 1 1 m1 h11 h1l
          (by decide)
      have hcf : (isLockError m && decide (2 < max_retries - 1)) = false := by
        simp [max_retries]
      have hstep2 : loopFrom sc.quality_height (attemptAt sc) (some m1) 1 2 =
          (((attemptAt sc 2).hooks.map hookMuts).flatten ++
            [.setStatus "error", .setError m], 3) :=
        @loopFrom_error_eq sc.quality_height (attemptAt sc) (some m1) 0 2 m hfail hcf
      have hrun : loopRun sc =
          (((attemptAt sc 0).hooks.map hookMuts).flatten ++
            .sleep (2 ^ 0) :: .setStatus "retrying" ::
              (((attemptAt sc 1).hooks.map hookMuts).flatten ++
                .sleep (2 ^ 1) :: .setStatus "retrying" ::
                  (((attemptAt sc 2).hooks.map hookMuts).flatten ++
                    [.setStatus "error", .setError m])), 3) := by
        rw [loopRun, hstep0, hstep1, hstep2]
      refine ⟨by rw [hrun], fun meta hmeta => finalState_error sc meta hmeta
        (((attemptAt sc 0).hooks.map hookMuts).flatten ++
          .sleep (2 ^ 0) :: .setStatus "retrying" ::
            (((attemptAt sc 1).hooks.map hookMuts).flatten ++
              .sleep (2 ^ 1) :: .setStatus "retrying" ::
                ((attemptAt sc 2).hooks.map hookMuts).flatten)) m ?_⟩
      rw [hrun]
      simp
  · intro m0 m1 m2 h00 h0l h11 h1l h22 h2l
    have hstep0 : loopFrom sc.quality_height (attemptAt sc) none max_retries 0 =
        (((attemptAt sc 0).hooks.map hookMuts).flatten ++
          .sleep (2 ^ 0) :: .setStatus "retrying" ::
            (loopFrom sc.quality_height (attemptAt sc) (some m0) 2 1).1,
         (loopFrom sc.quality_height (attemptAt sc) (some m0) 2 1).2) :=
      @loopFrom_retry_eq sc.quality_height (attemptAt sc) none 2 0 m0 h00 h0l
        (by decide)
    have hstep1 : loopFrom sc.quality_height (attemptAt sc) (some m0) 2 1 =
        (((attemptAt sc 1).hooks.map hookMuts).flatten ++
          .sleep (2 ^ 1) :: .setStatus "retrying" ::
            (loopFrom sc.quality_height (attemptAt sc) (some m1) 1 2).1,
         (loopFrom sc.quality_height (attemptAt sc) (some m1) 1 2).2) :=
      @loopFrom_retry_eq sc.quality_height (attemptAt sc) (some m0) 1 1 m1 h11 h1l
        (by decide)
    have hcf : (isLockError m2 && decide (2 < max_retries - 1)) = false := by
      simp [max_retries]
    have hstep2 : loopFrom sc.quality_height (attemptAt sc) (some m1) 1 2 =
        (((attemptAt sc 2).hooks.map hookMuts).flatten ++
          [.setStatus "error", .setError m2], 3) :=
      @loopFrom_error_eq sc.quality_height (attemptAt sc) (some m1) 0 2 m2 h22 hcf
    have hrun : loopRun sc =
        (((attemptAt sc 0).hooks.map hookMuts).flatten ++
          .sleep (2 ^ 0) :: .setStatus "retrying" ::
            (((attemptAt sc 1).hooks.map hookMuts).flatten ++
              .sleep (2 ^ 1) :: .setStatus "retrying" ::
                (((attemptAt sc 2).hooks.map hookMuts).flatten ++
                  [.setStatus "error", .setError m2])), 3) := by
      rw [loopRun, hstep0, hstep1, hstep2]
    have hn3 : (loopRun sc).2 = 3 := by rw [hrun]
    refine ⟨hn3, ?_, fun meta hmeta => finalState_error sc meta hmeta
      (((attemptAt sc 0).hooks.map hookMuts).flatten ++
        .sleep (2 ^ 0) :: .setStatus "retrying" ::
          (((attemptAt sc 1).hooks.map hookMuts).flatten ++
            .sleep (2 ^ 1) :: .setStatus "retrying" ::
              ((attemptAt sc 2).hooks.map hookMuts).flatten)) m2 ?_⟩
    · rw [hsleeps, hn3]
      decide
    · rw [hrun]
      simp

theorem retry_policy_witness :
    (loopRun scThreeLocks).2 = 3
    ∧ sleepsOf (loopRun scThreeLocks).1 = [1, 2]
    ∧ (finalState scThreeLocks).status = "error"
    ∧ (finalState scThreeLocks).error = some (lockMsg ++ " (c)")
    ∧ (loopRun scHardFail).2 = 1
    ∧ (finalState scHardFail).status = "error"
    ∧ (finalState scHardFail).error = some "ERROR: This video is unavailable" := by
  obtain ⟨_, _, _, hc⟩ := retry_policy scThreeLocks
  obtain ⟨hn3, hsl, hfin⟩ := hc (lockMsg ++ " (a)") (lockMsg ++ " (b)") (lockMsg ++ " (c)")
    rfl (by decide) rfl (by decide) rfl (by decide)
  obtain ⟨hst3, herr3⟩ := hfin ⟨"T", "th", 0⟩ rfl
  obtain ⟨_, _, hb, _⟩ := retry_policy scHardFail
  obtain ⟨hn1, hfin1⟩ := hb 0 "ERROR: This video is unavailable" (by omega)
    (fun k hk => (Nat.not_lt_zero k hk).elim) rfl (by decide)
  obtain ⟨hst1, herr1⟩ := hfin1 ⟨"T", "th", 0⟩ rfl
  exact ⟨hn3, hsl, hst3, herr3, hn1, hst1, herr1⟩

end YtDl
